import Mathlib

/-!
Verification development for the NeurAVR firmware core.

Shallow embedding of the core subsystems of the NeurAVR AVR firmware
library: the UART line-oriented receive buffer, the ADC round-robin
conversion scheduler, the emulation-target atomic-section primitive, the
application framework's command parser, event-handler registry dispatch,
and the outbound report queue.

Machine integers are modelled as `Nat` with explicit `% 2^w` reductions
where the C code relies on unsigned wraparound.  Fixed C arrays are
modelled as functions `Nat → _` updated pointwise; only in-range indices
are ever read, matching the C code's access patterns.
-/

set_option maxRecDepth 8192

namespace NeurAVR

/-!
## UART receive-side line buffer

Embedded from `UART_HandleRecvChar_ISR`, `UART_InitBuffers_ISR` and
`UART_SetLineFiltering` (core UART source).  The receive buffer is
`UART_LINE_COUNT` slots of `UART_LINE_SIZE` characters each.  The flat C
array `UART_recvlines[row << UART_LINE_BITS + idx]` is modelled as a
two-index function `lines row idx`.  The C `static bool saw_cr` local is
part of the persistent state.  Transmit-side variables are omitted: the
receive-path claims never touch them.
-/

def UART_LINE_COUNT : Nat := 8
def UART_LINE_BITS : Nat := 6
-- UART_LINE_SIZE = 1 <<< UART_LINE_BITS
def UART_LINE_SIZE : Nat := 64

structure UartState where
  lines : Nat → Nat → Nat
  rowcount : Nat
  oldestrow : Nat
  newestrow : Nat
  recvcharptr : Nat
  saw_cr : Bool
  filter_empty : Bool

/-- Pointwise update of one cell of the receive buffer. -/
def writeCell (lines : Nat → Nat → Nat) (row idx v : Nat) : Nat → Nat → Nat :=
  fun r i => if r = row ∧ i = idx then v else lines r i

/-- Mirror of `UART_InitBuffers_ISR`: the first character of each of the
`UART_LINE_COUNT` slots is zeroed (the rest of SRAM, `mem`, is arbitrary),
and all tracking variables are reset.  `saw_cr` is the function-static
CRLF tracker, `false` at program start; `uart_filter_empty_lines` starts
`false`. -/
def UART_InitBuffers (mem : Nat → Nat → Nat) : UartState :=
  { lines := fun r i => if r < UART_LINE_COUNT ∧ i = 0 then 0 else mem r i,
    rowcount := 0, oldestrow := 0, newestrow := 0, recvcharptr := 0,
    saw_cr := false, filter_empty := false }

/-- Mirror of `UART_SetLineFiltering`. -/
def UART_SetLineFiltering (s : UartState) (new_state : Bool) : UartState :=
  { s with filter_empty := new_state }

/-- Mirror of `UART_HandleRecvChar_ISR`.  Characters are byte values
(10 = LF, 13 = CR).  The C increment `(newestrow + 1) & (UART_LINE_COUNT - 1)`
is `% UART_LINE_COUNT` since the count is a power of two. -/
def UART_HandleRecvChar_ISR (s : UartState) (c : Nat) : UartState :=
  if s.saw_cr = true ∧ c = 10 then
    -- Ignore the "LF" in "CRLF" even if filtering is off.
    -- Only the trailing CRLF-tracking update happens (c ≠ 13 here).
    { s with saw_cr := false }
  else if c = 10 ∨ c = 13 then
    -- End-of-line marker.
    if s.filter_empty = true ∧ s.recvcharptr = 0 then
      -- Filtering empty lines: drop the empty line, keep the slot.
      { s with saw_cr := c == 13 }
    else
      -- Terminate this line (truncating the cursor to capacity if needed).
      let p := if s.recvcharptr ≥ UART_LINE_SIZE then UART_LINE_SIZE - 1
               else s.recvcharptr
      let lines1 := writeCell s.lines s.newestrow p 0
      -- Advance to the next line. If we're full, stay on this line.
      let adv := s.rowcount < UART_LINE_COUNT - 1
      let newest1 := if adv then (s.newestrow + 1) % UART_LINE_COUNT
                     else s.newestrow
      let rc1 := if adv then s.rowcount + 1 else s.rowcount
      { s with lines := writeCell lines1 newest1 0 0,
               rowcount := rc1, newestrow := newest1,
               recvcharptr := 0, saw_cr := c == 13 }
  else
    -- Ordinary character: append if capacity remains, else silently drop.
    if s.recvcharptr < UART_LINE_SIZE then
      { s with lines := writeCell s.lines s.newestrow s.recvcharptr c,
               recvcharptr := s.recvcharptr + 1, saw_cr := c == 13 }
    else
      { s with saw_cr := c == 13 }

/-- Feeding a character sequence to the receive state machine. -/
def UART_FeedChars (s : UartState) (cs : List Nat) : UartState :=
  cs.foldl UART_HandleRecvChar_ISR s

/-- Whether one received character takes the end-of-line-marker branch of
`UART_HandleRecvChar_ISR` (i.e. acts as a line terminator): CR always
does; LF does unless it immediately follows a CR. -/
def UART_TermEvent (s : UartState) (c : Nat) : Bool :=
  if s.saw_cr = true ∧ c = 10 then false
  else decide (c = 10 ∨ c = 13)

/-- Number of line-terminator events produced while feeding a character
sequence. -/
def UART_TermCount (s : UartState) : List Nat → Nat
  | [] => 0
  | c :: rest =>
    (if UART_TermEvent s c then 1 else 0) +
      UART_TermCount (UART_HandleRecvChar_ISR s c) rest

/-- Invariant of the receive buffer: at most `UART_LINE_COUNT - 1`
complete lines; the in-progress slot is `newestrow = oldest + count`
(mod the ring size); the write cursor never exceeds capacity; and every
completed line's slot holds a null terminator at an index strictly below
`UART_LINE_SIZE`. -/
def UartInv (s : UartState) : Prop :=
  s.rowcount ≤ UART_LINE_COUNT - 1 ∧
  s.oldestrow < UART_LINE_COUNT ∧
  s.newestrow = (s.oldestrow + s.rowcount) % UART_LINE_COUNT ∧
  s.recvcharptr ≤ UART_LINE_SIZE ∧
  ∀ k < s.rowcount, ∃ j < UART_LINE_SIZE,
    s.lines ((s.oldestrow + k) % UART_LINE_COUNT) j = 0

theorem writeCell_same (lines : Nat → Nat → Nat) (row idx v : Nat) :
    writeCell lines row idx v row idx = v := by
  simp [writeCell]

theorem writeCell_other (lines : Nat → Nat → Nat) (row idx v r i : Nat)
    (h : ¬(r = row ∧ i = idx)) : writeCell lines row idx v r i = lines r i := by
  simp only [writeCell, if_neg h]

theorem UartInv_step (s : UartState) (c : Nat) (h : UartInv s) :
    UartInv (UART_HandleRecvChar_ISR s c) := by
  obtain ⟨hrc, hold, hnew, hptr, hwin⟩ := h
  simp only [UART_LINE_COUNT, UART_LINE_SIZE] at hrc hold hnew hptr hwin
  unfold UART_HandleRecvChar_ISR UartInv
  simp only [UART_LINE_COUNT, UART_LINE_SIZE]
  by_cases hA : s.saw_cr = true ∧ c = 10
  · rw [if_pos hA]
    exact ⟨hrc, hold, hnew, hptr, hwin⟩
  · rw [if_neg hA]
    by_cases hB : c = 10 ∨ c = 13
    · rw [if_pos hB]
      by_cases hC : s.filter_empty = true ∧ s.recvcharptr = 0
      · rw [if_pos hC]
        exact ⟨hrc, hold, hnew, hptr, hwin⟩
      · rw [if_neg hC]
        by_cases hD : s.rowcount < 8 - 1
        · simp only [if_pos hD]
          refine ⟨by omega, hold, by omega, by omega, ?_⟩
          intro k hk
          rcases Nat.lt_succ_iff_lt_or_eq.mp hk with hk2 | hk2
          · obtain ⟨j, hj, hz⟩ := hwin k hk2
            refine ⟨j, hj, ?_⟩
            rw [writeCell_other, writeCell_other]
            · exact hz
            · rw [hnew]
              intro ⟨hr, _⟩
              omega
            · rw [hnew]
              intro ⟨hr, _⟩
              omega
          · subst hk2
            by_cases hE : s.recvcharptr ≥ 64
            · simp only [if_pos hE]
              refine ⟨63, by omega, ?_⟩
              rw [writeCell_other]
              · rw [← hnew, writeCell_same]
              · rw [hnew]
                intro ⟨hr, _⟩
                omega
            · simp only [if_neg hE]
              refine ⟨s.recvcharptr, by omega, ?_⟩
              rw [writeCell_other]
              · rw [← hnew, writeCell_same]
              · rw [hnew]
                intro ⟨hr, _⟩
                omega
        · simp only [if_neg hD]
          refine ⟨hrc, hold, hnew, by omega, ?_⟩
          intro k hk
          obtain ⟨j, hj, hz⟩ := hwin k hk
          refine ⟨j, hj, ?_⟩
          rw [writeCell_other, writeCell_other]
          · exact hz
          · rw [hnew]
            intro ⟨hr, _⟩
            omega
          · rw [hnew]
            intro ⟨hr, _⟩
            omega
    · rw [if_neg hB]
      by_cases hE : s.recvcharptr < 64
      · rw [if_pos hE]
        dsimp only
        refine ⟨hrc, hold, hnew, by omega, ?_⟩
        intro k hk
        obtain ⟨j, hj, hz⟩ := hwin k hk
        refine ⟨j, hj, ?_⟩
        rw [writeCell_other]
        · exact hz
        · rw [hnew]
          intro ⟨hr, _⟩
          omega
      · rw [if_neg hE]
        exact ⟨hrc, hold, hnew, hptr, hwin⟩

theorem UartInv_feed (cs : List Nat) (s : UartState) (h : UartInv s) :
    UartInv (UART_FeedChars s cs) := by
  induction cs generalizing s with
  | nil => exact h
  | cons c rest ih => exact ih _ (UartInv_step s c h)

theorem UartInv_init (mem : Nat → Nat → Nat) (filt : Bool) :
    UartInv (UART_SetLineFiltering (UART_InitBuffers mem) filt) := by
  refine ⟨by simp [UART_SetLineFiltering, UART_InitBuffers, UART_LINE_COUNT], by
    simp [UART_SetLineFiltering, UART_InitBuffers, UART_LINE_COUNT], by
    simp [UART_SetLineFiltering, UART_InitBuffers], by
    simp [UART_SetLineFiltering, UART_InitBuffers], ?_⟩
  intro k hk
  simp [UART_SetLineFiltering, UART_InitBuffers] at hk

/-- **C4**: for every sequence of characters fed to the receive state
machine starting from the initialized buffer state (any empty-line
filtering setting, any initial SRAM contents `mem`), the number of complete
unread lines never exceeds `UART_LINE_COUNT - 1`, and every completed line
is null-terminated at an index strictly less than `UART_LINE_SIZE`. -/
theorem C4_uart_line_buffer_invariant (cs : List Nat) (mem : Nat → Nat → Nat)
    (filt : Bool) :
    (UART_FeedChars (UART_SetLineFiltering (UART_InitBuffers mem) filt)
        cs).rowcount ≤ UART_LINE_COUNT - 1 ∧
    ∀ k < (UART_FeedChars (UART_SetLineFiltering (UART_InitBuffers mem) filt)
        cs).rowcount,
      ∃ j < UART_LINE_SIZE,
        (UART_FeedChars (UART_SetLineFiltering (UART_InitBuffers mem) filt)
            cs).lines
          (((UART_FeedChars (UART_SetLineFiltering (UART_InitBuffers mem) filt)
              cs).oldestrow + k) % UART_LINE_COUNT) j = 0 := by
  have h := UartInv_feed cs _ (UartInv_init mem filt)
  exact ⟨h.1, h.2.2.2.2⟩

/-- Witness for C4 at a concrete input. -/
theorem C4_uart_line_buffer_invariant_witness :
    (UART_FeedChars (UART_SetLineFiltering (UART_InitBuffers (fun _ _ => 55))
        false) [72, 73, 13]).rowcount ≤ UART_LINE_COUNT - 1 ∧
    ∀ k < (UART_FeedChars (UART_SetLineFiltering
        (UART_InitBuffers (fun _ _ => 55)) false) [72, 73, 13]).rowcount,
      ∃ j < UART_LINE_SIZE,
        (UART_FeedChars (UART_SetLineFiltering (UART_InitBuffers (fun _ _ => 55))
            false) [72, 73, 13]).lines
          (((UART_FeedChars (UART_SetLineFiltering
              (UART_InitBuffers (fun _ _ => 55)) false)
              [72, 73, 13]).oldestrow + k) % UART_LINE_COUNT) j = 0 :=
  C4_uart_line_buffer_invariant [72, 73, 13] (fun _ _ => 55) false

theorem saw_cr_after_cr (s : UartState) :
    (UART_HandleRecvChar_ISR s 13).saw_cr = true := by
  unfold UART_HandleRecvChar_ISR
  split_ifs with h1 h2 h3 h4 <;> simp_all

theorem lf_after_cr_ignored (t : UartState) (h : t.saw_cr = true) :
    (UART_HandleRecvChar_ISR t 10).lines = t.lines ∧
    (UART_HandleRecvChar_ISR t 10).rowcount = t.rowcount ∧
    (UART_HandleRecvChar_ISR t 10).newestrow = t.newestrow ∧
    (UART_HandleRecvChar_ISR t 10).oldestrow = t.oldestrow ∧
    (UART_HandleRecvChar_ISR t 10).recvcharptr = t.recvcharptr := by
  unfold UART_HandleRecvChar_ISR
  rw [if_pos ⟨h, rfl⟩]
  simp

/-- **C6**: a lone CR, a lone LF, and the two-character sequence CR LF each
produce exactly one line-terminator event; an LF arriving immediately after
a CR is ignored (the buffer state is untouched, whatever the filtering
setting), while an LF not preceded by CR is a terminator — so CRLF never
completes two lines. -/
theorem C6_crlf_single_terminator (s : UartState) (h : s.saw_cr = false) :
    UART_TermCount s [13] = 1 ∧
    UART_TermCount s [10] = 1 ∧
    UART_TermCount s [13, 10] = 1 ∧
    (∀ t : UartState, t.saw_cr = true →
      UART_TermEvent t 10 = false ∧
      (UART_HandleRecvChar_ISR t 10).lines = t.lines ∧
      (UART_HandleRecvChar_ISR t 10).rowcount = t.rowcount ∧
      (UART_HandleRecvChar_ISR t 10).newestrow = t.newestrow ∧
      (UART_HandleRecvChar_ISR t 10).recvcharptr = t.recvcharptr) ∧
    (∀ t : UartState, t.saw_cr = false → UART_TermEvent t 10 = true) := by
  refine ⟨?_, ?_, ?_, ?_, ?_⟩
  · simp [UART_TermCount, UART_TermEvent]
  · simp [UART_TermCount, UART_TermEvent, h]
  · have hcr := saw_cr_after_cr s
    simp [UART_TermCount, UART_TermEvent, hcr]
  · intro t ht
    obtain ⟨h1, h2, h3, _, h5⟩ := lf_after_cr_ignored t ht
    exact ⟨by simp [UART_TermEvent, ht], h1, h2, h3, h5⟩
  · intro t ht
    simp [UART_TermEvent, ht]

/-- Witness for C6 at a concrete state with `saw_cr = false`. -/
theorem C6_crlf_single_terminator_witness :
    (UART_InitBuffers (fun _ _ => 0)).saw_cr = false ∧
    (UART_TermCount (UART_InitBuffers (fun _ _ => 0)) [13] = 1 ∧
     UART_TermCount (UART_InitBuffers (fun _ _ => 0)) [10] = 1 ∧
     UART_TermCount (UART_InitBuffers (fun _ _ => 0)) [13, 10] = 1 ∧
     (∀ t : UartState, t.saw_cr = true →
       UART_TermEvent t 10 = false ∧
       (UART_HandleRecvChar_ISR t 10).lines = t.lines ∧
       (UART_HandleRecvChar_ISR t 10).rowcount = t.rowcount ∧
       (UART_HandleRecvChar_ISR t 10).newestrow = t.newestrow ∧
       (UART_HandleRecvChar_ISR t 10).recvcharptr = t.recvcharptr) ∧
     (∀ t : UartState, t.saw_cr = false → UART_TermEvent t 10 = true)) :=
  ⟨rfl, C6_crlf_single_terminator (UART_InitBuffers (fun _ _ => 0)) rfl⟩

/-- Input for the C2 counterexample: eight CR-terminated one-character
lines A, B, ..., H fed into an empty buffer. -/
def uartEightLines : List Nat :=
  [65, 13, 66, 13, 67, 13, 68, 13, 69, 13, 70, 13, 71, 13, 72, 13]

/-- **C2 counterexample**: with the buffer already holding `N-1 = 7`
complete unread lines (A through G), the eighth terminator does NOT
overwrite the oldest unread line: slot 0 still holds line A (65), no
unread slot holds the newest line H (72) — the line that is discarded is
the newest one, contrary to the claim that the oldest unread line is
silently overwritten. -/
theorem C2_counterexample :
    (UART_FeedChars (UART_InitBuffers (fun _ _ => 0))
        uartEightLines).rowcount = UART_LINE_COUNT - 1 ∧
    (UART_FeedChars (UART_InitBuffers (fun _ _ => 0))
        uartEightLines).oldestrow = 0 ∧
    (UART_FeedChars (UART_InitBuffers (fun _ _ => 0))
        uartEightLines).lines 0 0 = 65 ∧
    (UART_FeedChars (UART_InitBuffers (fun _ _ => 0))
        uartEightLines).lines
      (UART_FeedChars (UART_InitBuffers (fun _ _ => 0))
        uartEightLines).newestrow 0 = 0 ∧
    ∀ k < UART_LINE_COUNT,
      ¬ (UART_FeedChars (UART_InitBuffers (fun _ _ => 0))
          uartEightLines).lines k 0 = 72 := by
  decide

/-- **C2 amended**: when a line terminator arrives while the buffer already
holds `N-1` complete unread lines, the receive ISR null-terminates the
in-progress slot and reuses that same slot for the next line, so the line
just completed (the newest) is the one silently overwritten; every other
slot — in particular each oldest unread line — is untouched, and the
complete-line count stays at `N-1`. -/
theorem C2_full_buffer_reuses_newest_slot (s : UartState) (c : Nat)
    (hfull : s.rowcount = UART_LINE_COUNT - 1)
    (hterm : c = 10 ∨ c = 13)
    (hnotcrlf : ¬(s.saw_cr = true ∧ c = 10))
    (hnonempty : ¬(s.filter_empty = true ∧ s.recvcharptr = 0)) :
    (UART_HandleRecvChar_ISR s c).rowcount = UART_LINE_COUNT - 1 ∧
    (UART_HandleRecvChar_ISR s c).newestrow = s.newestrow ∧
    (UART_HandleRecvChar_ISR s c).oldestrow = s.oldestrow ∧
    (UART_HandleRecvChar_ISR s c).recvcharptr = 0 ∧
    (UART_HandleRecvChar_ISR s c).lines s.newestrow 0 = 0 ∧
    ∀ r j, r ≠ s.newestrow →
      (UART_HandleRecvChar_ISR s c).lines r j = s.lines r j := by
  have hD : ¬(s.rowcount < UART_LINE_COUNT - 1) := by
    simp only [UART_LINE_COUNT] at hfull ⊢
    omega
  unfold UART_HandleRecvChar_ISR
  rw [if_neg hnotcrlf, if_pos hterm, if_neg hnonempty]
  simp only [if_neg hD]
  refine ⟨hfull, trivial, trivial, trivial, ?_, ?_⟩
  · exact writeCell_same _ _ _ _
  · intro r j hr
    rw [writeCell_other, writeCell_other]
    · intro ⟨h1, _⟩
      exact hr h1
    · intro ⟨h1, _⟩
      exact hr h1

/-- Witness for the amended C2 theorem: a buffer filled with seven unread
lines receiving a CR terminator. -/
theorem C2_full_buffer_reuses_newest_slot_witness :
    ((UART_FeedChars (UART_InitBuffers (fun _ _ => 0))
        [65, 13, 66, 13, 67, 13, 68, 13, 69, 13, 70, 13, 71, 13, 72]).rowcount
      = UART_LINE_COUNT - 1) ∧
    ((UART_HandleRecvChar_ISR
        (UART_FeedChars (UART_InitBuffers (fun _ _ => 0))
          [65, 13, 66, 13, 67, 13, 68, 13, 69, 13, 70, 13, 71, 13, 72])
        13).rowcount = UART_LINE_COUNT - 1 ∧
     (UART_HandleRecvChar_ISR
        (UART_FeedChars (UART_InitBuffers (fun _ _ => 0))
          [65, 13, 66, 13, 67, 13, 68, 13, 69, 13, 70, 13, 71, 13, 72])
        13).newestrow =
       (UART_FeedChars (UART_InitBuffers (fun _ _ => 0))
          [65, 13, 66, 13, 67, 13, 68, 13, 69, 13, 70, 13, 71, 13, 72]).newestrow ∧
     (UART_HandleRecvChar_ISR
        (UART_FeedChars (UART_InitBuffers (fun _ _ => 0))
          [65, 13, 66, 13, 67, 13, 68, 13, 69, 13, 70, 13, 71, 13, 72])
        13).oldestrow =
       (UART_FeedChars (UART_InitBuffers (fun _ _ => 0))
          [65, 13, 66, 13, 67, 13, 68, 13, 69, 13, 70, 13, 71, 13, 72]).oldestrow ∧
     (UART_HandleRecvChar_ISR
        (UART_FeedChars (UART_InitBuffers (fun _ _ => 0))
          [65, 13, 66, 13, 67, 13, 68, 13, 69, 13, 70, 13, 71, 13, 72])
        13).recvcharptr = 0 ∧
     (UART_HandleRecvChar_ISR
        (UART_FeedChars (UART_InitBuffers (fun _ _ => 0))
          [65, 13, 66, 13, 67, 13, 68, 13, 69, 13, 70, 13, 71, 13, 72])
        13).lines
       (UART_FeedChars (UART_InitBuffers (fun _ _ => 0))
          [65, 13, 66, 13, 67, 13, 68, 13, 69, 13, 70, 13, 71, 13, 72]).newestrow
       0 = 0 ∧
     ∀ r j, r ≠ (UART_FeedChars (UART_InitBuffers (fun _ _ => 0))
          [65, 13, 66, 13, 67, 13, 68, 13, 69, 13, 70, 13, 71, 13, 72]).newestrow →
       (UART_HandleRecvChar_ISR
          (UART_FeedChars (UART_InitBuffers (fun _ _ => 0))
            [65, 13, 66, 13, 67, 13, 68, 13, 69, 13, 70, 13, 71, 13, 72])
          13).lines r j =
         (UART_FeedChars (UART_InitBuffers (fun _ _ => 0))
            [65, 13, 66, 13, 67, 13, 68, 13, 69, 13, 70, 13, 71, 13, 72]).lines r j) :=
  ⟨by decide,
   C2_full_buffer_reuses_newest_slot _ 13 (by decide) (by decide)
     (by decide) (by decide)⟩

/-!
## ADC round-robin conversion scheduler

Embedded from `ADC_ReInitBuffer`, `ADC_StartConversion`,
`ADC_HousekeepingPoll` and `ADC_ReadPendingSample` (core ADC source).
The hardware collaborators are abstracted exactly at their call sites:
`ADC_IsADCBusy()` becomes the `busy` argument of a poll,
`ADC_GetConversionResult()` becomes the `result` argument, and
`ADC_ReadFromChannel(ch)` is a hardware start with no effect on this
state, so the `next_channel` bookkeeping of the loop (which only feeds
that call) has no state effect here.
-/

def ADC_CHANNEL_COUNT : Nat := 6

structure AdcState where
  idle : Bool
  needs : Nat → Bool
  ready : Nat → Bool
  dat : Nat → Nat

/-- The channel indices `cidx = 0 .. ADC_CHANNEL_COUNT-1` scanned by every
loop in the ADC source. -/
def adcChannels : List Nat := [0, 1, 2, 3, 4, 5]

/-- Mirror of `ADC_ReInitBuffer`: clears all per-channel state and sets
`ADC_idle`. -/
def ADC_ReInitBuffer : AdcState :=
  { idle := true, needs := fun _ => false, ready := fun _ => false,
    dat := fun _ => 0 }

/-- The effect of the `1 == count` arm of the `ADC_HousekeepingPoll` loop
on channel `cidx`: clear `needs_conversion`, set `data_ready`, store the
conversion result. -/
def completeChan (s : AdcState) (cidx : Nat) (result : Nat) : AdcState :=
  { s with needs := fun c => if c = cidx then false else s.needs c,
           ready := fun c => if c = cidx then true else s.ready c,
           dat := fun c => if c = cidx then result else s.dat c }

/-- Mirror of the `for (cidx ...)` loop of `ADC_HousekeepingPoll`:
counts channels still marked `needs_conversion` and completes the first
one.  (The `2 == count` arm only records `next_channel` for the trailing
`ADC_ReadFromChannel` hardware start, which has no effect on this state.) -/
def ADC_PollLoop (result : Nat) : List Nat → AdcState → Nat → AdcState × Nat
  | [], s, count => (s, count)
  | cidx :: rest, s, count =>
    if s.needs cidx = true then
      let count1 := count + 1
      let s1 := if count1 = 1 then completeChan s cidx result else s
      ADC_PollLoop result rest s1 count1
    else
      ADC_PollLoop result rest s count

/-- Mirror of `ADC_HousekeepingPoll`, with the hardware query
`ADC_IsADCBusy()` passed in as `busy` and `ADC_GetConversionResult()` as
`result`. -/
def ADC_HousekeepingPoll (s : AdcState) (busy : Bool) (result : Nat) :
    AdcState :=
  if s.idle = false ∧ busy = false then
    let pr := ADC_PollLoop result adcChannels s 0
    -- "See if we've converted the last sample. Queue the next sample if
    -- not" — the requeue is a pure hardware start.
    if pr.2 ≤ 1 then { pr.1 with idle := true } else pr.1
  else s

/-- Mirror of `ADC_StartConversion`: ignored unless idle; otherwise
reinitializes the buffer, marks every requested in-range channel
(`channel_mask & (1 << cidx)` is `testBit`), and if any channel was
requested clears `ADC_idle` (and starts the hardware on the first
requested channel — no state effect). -/
def ADC_StartConversion (s : AdcState) (channel_mask : Nat) : AdcState :=
  if s.idle = true then
    let s1 := ADC_ReInitBuffer
    let s2 := { s1 with
      needs := fun c =>
        if c < ADC_CHANNEL_COUNT ∧ channel_mask.testBit c then true
        else s1.needs c }
    if (List.range ADC_CHANNEL_COUNT).any (fun c => channel_mask.testBit c)
    then { s2 with idle := false }
    else s2
  else s

/-- Mirror of the search loop of `ADC_ReadPendingSample`: the first
channel with `data_ready`, if any. -/
def ADC_FindReady (s : AdcState) : List Nat → Option Nat
  | [] => none
  | c :: rest => if s.ready c = true then some c else ADC_FindReady s rest

/-- Mirror of `ADC_ReadPendingSample`: valid only while idle; returns the
first ready channel's value and index, clearing its `data_ready` flag. -/
def ADC_ReadPendingSample (s : AdcState) : Option (Nat × Nat) × AdcState :=
  if s.idle = true then
    match ADC_FindReady s adcChannels with
    | some c =>
      (some (s.dat c, c),
       { s with ready := fun x => if x = c then false else s.ready x })
    | none => (none, s)
  else (none, s)

/-- `k` housekeeping polls with the hardware reporting not-busy, the
`j`-th poll delivering conversion result `results j`. -/
def ADC_Polls (s : AdcState) (results : Nat → Nat) : Nat → AdcState
  | 0 => s
  | k + 1 => ADC_HousekeepingPoll (ADC_Polls s results k) false (results k)

/-- Draining up to `fuel` samples by repeated `ADC_ReadPendingSample`
calls. -/
def ADC_ReadAll (s : AdcState) : Nat → List (Nat × Nat)
  | 0 => []
  | fuel + 1 =>
    match ADC_ReadPendingSample s with
    | (some v, s2) => v :: ADC_ReadAll s2 fuel
    | (none, _) => []

/-- The requested in-range channels of a mask, in ascending index order. -/
def reqChannels (channel_mask : Nat) : List Nat :=
  (List.range ADC_CHANNEL_COUNT).filter (fun c => channel_mask.testBit c)

/-- The channels still marked `needs_conversion`, in ascending order. -/
def pendingList (s : AdcState) : List Nat :=
  adcChannels.filter (fun c => s.needs c)

/-- The channels marked `data_ready`, in ascending order. -/
def readyList (s : AdcState) : List Nat :=
  adcChannels.filter (fun c => s.ready c)

theorem ADC_PollLoop_pos (r : Nat) (l : List Nat) :
    ∀ (s : AdcState) (count : Nat), 1 ≤ count →
    ADC_PollLoop r l s count =
      (s, count + (l.filter (fun c => s.needs c)).length) := by
  induction l with
  | nil =>
    intro s count _
    simp [ADC_PollLoop]
  | cons a rest ih =>
    intro s count h
    by_cases ha : s.needs a = true
    · rw [ADC_PollLoop, if_pos ha]
      have hne : ¬(count + 1 = 1) := by omega
      simp only [if_neg hne]
      rw [ih s (count + 1) (by omega)]
      rw [List.filter_cons, if_pos (by simpa using ha)]
      simp only [Prod.mk.injEq, List.length_cons, true_and]
      omega
    · rw [ADC_PollLoop, if_neg ha]
      rw [ih s count h]
      rw [List.filter_cons, if_neg (by simpa using ha)]

theorem ADC_PollLoop_zero_nil (r : Nat) (l : List Nat) :
    ∀ (s : AdcState), l.filter (fun c => s.needs c) = [] →
    ADC_PollLoop r l s 0 = (s, 0) := by
  induction l with
  | nil =>
    intro s _
    simp [ADC_PollLoop]
  | cons a rest ih =>
    intro s h
    rw [List.filter_cons] at h
    by_cases ha : s.needs a = true
    · rw [if_pos (by simpa using ha)] at h
      simp at h
    · rw [if_neg (by simpa using ha)] at h
      rw [ADC_PollLoop, if_neg ha]
      exact ih s h

theorem ADC_PollLoop_zero_cons (r : Nat) (l : List Nat) :
    ∀ (s : AdcState) (c : Nat) (rest : List Nat), l.Nodup →
    l.filter (fun x => s.needs x) = c :: rest →
    ADC_PollLoop r l s 0 = (completeChan s c r, 1 + rest.length) := by
  induction l with
  | nil =>
    intro s c rest _ h
    simp at h
  | cons a l2 ih =>
    intro s c rest hnd h
    rw [List.filter_cons] at h
    obtain ⟨ha2, hnd2⟩ := List.nodup_cons.mp hnd
    by_cases ha : s.needs a = true
    · rw [if_pos (by simpa using ha)] at h
      obtain ⟨hac, hrest⟩ := List.cons_eq_cons.mp h
      subst hac
      rw [ADC_PollLoop, if_pos ha]
      show ADC_PollLoop r l2 (completeChan s a r) 1 =
        (completeChan s a r, 1 + rest.length)
      rw [ADC_PollLoop_pos r l2 _ 1 le_rfl]
      have hfeq : l2.filter (fun x => (completeChan s a r).needs x) =
          l2.filter (fun x => s.needs x) := by
        apply List.filter_congr
        intro x hx
        have hxa : ¬(x = a) := by
          intro hxa
          exact ha2 (hxa ▸ hx)
        simp [completeChan, hxa]
      rw [hfeq, hrest]
    · rw [if_neg (by simpa using ha)] at h
      rw [ADC_PollLoop, if_neg ha]
      exact ih s c rest hnd2 h

theorem ADC_HousekeepingPoll_idle (s : AdcState) (busy : Bool) (r : Nat)
    (h : s.idle = true) : ADC_HousekeepingPoll s busy r = s := by
  unfold ADC_HousekeepingPoll
  rw [if_neg (by simp [h])]

theorem ADC_HousekeepingPoll_pending_nil (s : AdcState) (r : Nat)
    (hidle : s.idle = false) (hp : pendingList s = []) :
    ADC_HousekeepingPoll s false r = { s with idle := true } := by
  unfold ADC_HousekeepingPoll
  rw [if_pos ⟨hidle, rfl⟩]
  rw [ADC_PollLoop_zero_nil r adcChannels s hp]
  simp

theorem ADC_HousekeepingPoll_pending_cons (s : AdcState) (r : Nat)
    (c : Nat) (rest : List Nat)
    (hidle : s.idle = false) (hp : pendingList s = c :: rest) :
    ADC_HousekeepingPoll s false r =
      (if rest.length = 0 then { completeChan s c r with idle := true }
       else completeChan s c r) := by
  unfold ADC_HousekeepingPoll
  rw [if_pos ⟨hidle, rfl⟩]
  have hnd : adcChannels.Nodup := by decide
  rw [ADC_PollLoop_zero_cons r adcChannels s c rest hnd hp]
  by_cases h : rest.length = 0
  · rw [if_pos h]
    simp [h]
  · rw [if_neg h]
    have : ¬(1 + rest.length ≤ 1) := by omega
    simp [this]

theorem filter_mem_of_sublist {t l : List Nat} (hnd : l.Nodup)
    (hsub : t.Sublist l) : l.filter (fun x => decide (x ∈ t)) = t := by
  induction hsub with
  | slnil => simp
  | @cons t l2 a hs ih =>
    obtain ⟨ha, hnd2⟩ := List.nodup_cons.mp hnd
    have hat : a ∉ t := fun hat => ha (hs.subset hat)
    rw [List.filter_cons, if_neg (by simpa using hat)]
    exact ih hnd2
  | @cons₂ t2 l2 a hs ih =>
    obtain ⟨ha, hnd2⟩ := List.nodup_cons.mp hnd
    rw [List.filter_cons, if_pos (by simp)]
    have hcong : l2.filter (fun x => decide (x ∈ a :: t2)) =
        l2.filter (fun x => decide (x ∈ t2)) := by
      apply List.filter_congr
      intro x hx
      have hxa : ¬(x = a) := by
        intro hxa
        exact ha (hxa ▸ hx)
      simp [hxa]
    rw [hcong, ih hnd2]

theorem reqChannels_sublist (mask : Nat) :
    (reqChannels mask).Sublist adcChannels := by
  have h1 : (reqChannels mask).Sublist (List.range ADC_CHANNEL_COUNT) :=
    List.filter_sublist _
  have h2 : List.range ADC_CHANNEL_COUNT = adcChannels := by decide
  rw [h2] at h1
  exact h1

theorem adcChannels_nodup : adcChannels.Nodup := by decide

theorem reqChannels_nodup (mask : Nat) : (reqChannels mask).Nodup :=
  (reqChannels_sublist mask).nodup adcChannels_nodup

theorem mem_reqChannels (mask c : Nat) :
    c ∈ reqChannels mask ↔ c < ADC_CHANNEL_COUNT ∧ mask.testBit c = true := by
  unfold reqChannels
  simp [List.mem_filter, List.mem_range]

theorem reqChannels_nil_iff (mask : Nat) :
    reqChannels mask = [] ↔
      ¬((List.range ADC_CHANNEL_COUNT).any (fun c => mask.testBit c) = true)
    := by
  unfold reqChannels
  rw [List.filter_eq_nil_iff]
  simp

/-- Characterization of an accepted `ADC_StartConversion`. -/
theorem ADC_StartConversion_accepted (s0 : AdcState) (h0 : s0.idle = true)
    (mask : Nat) :
    (∀ c, ((ADC_StartConversion s0 mask).needs c = true ↔
       c ∈ reqChannels mask)) ∧
    (∀ c, (ADC_StartConversion s0 mask).ready c = false) ∧
    (∀ c, (ADC_StartConversion s0 mask).dat c = 0) ∧
    ((ADC_StartConversion s0 mask).idle = true ↔ reqChannels mask = []) := by
  have hneeds : ∀ c : Nat,
      ((if c < ADC_CHANNEL_COUNT ∧ mask.testBit c = true then true
        else ADC_ReInitBuffer.needs c) = true ↔ c ∈ reqChannels mask) := by
    intro c
    rw [mem_reqChannels]
    by_cases hc : c < ADC_CHANNEL_COUNT ∧ mask.testBit c = true
    · rw [if_pos hc]
      simp [hc]
    · rw [if_neg hc]
      simp [ADC_ReInitBuffer, hc]
  unfold ADC_StartConversion
  rw [if_pos h0]
  by_cases hany :
      (List.range ADC_CHANNEL_COUNT).any (fun c => mask.testBit c) = true
  · rw [if_pos hany]
    refine ⟨hneeds, fun c => rfl, fun c => rfl, ?_⟩
    constructor
    · intro h
      exact absurd h (by simp)
    · intro h
      rw [reqChannels_nil_iff] at h
      exact absurd hany h
  · rw [if_neg hany]
    refine ⟨hneeds, fun c => rfl, fun c => rfl, ?_⟩
    constructor
    · intro _
      exact (reqChannels_nil_iff mask).mpr hany
    · intro _
      rfl

theorem pendingList_eq (s : AdcState) (t : List Nat)
    (hsub : t.Sublist adcChannels) (h : ∀ c, s.needs c = true ↔ c ∈ t) :
    pendingList s = t := by
  unfold pendingList
  have hcong : adcChannels.filter (fun c => s.needs c) =
      adcChannels.filter (fun x => decide (x ∈ t)) := by
    apply List.filter_congr
    intro x _
    by_cases hx : x ∈ t
    · simp [hx, (h x).mpr hx]
    · have hfx : s.needs x = false := by
        cases hb : s.needs x
        · rfl
        · exact absurd ((h x).mp hb) hx
      simp [hfx, hx]
  rw [hcong, filter_mem_of_sublist adcChannels_nodup hsub]

theorem readyList_eq (s : AdcState) (t : List Nat)
    (hsub : t.Sublist adcChannels) (h : ∀ c, s.ready c = true ↔ c ∈ t) :
    readyList s = t := by
  unfold readyList
  have hcong : adcChannels.filter (fun c => s.ready c) =
      adcChannels.filter (fun x => decide (x ∈ t)) := by
    apply List.filter_congr
    intro x _
    by_cases hx : x ∈ t
    · simp [hx, (h x).mpr hx]
    · have hfx : s.ready x = false := by
        cases hb : s.ready x
        · rfl
        · exact absurd ((h x).mp hb) hx
      simp [hfx, hx]
  rw [hcong, filter_mem_of_sublist adcChannels_nodup hsub]

/-- `ADC_StartConversion` followed by `j` not-busy housekeeping polls. -/
def AdcRun (s0 : AdcState) (mask : Nat) (results : Nat → Nat) (j : Nat) :
    AdcState :=
  ADC_Polls (ADC_StartConversion s0 mask) results j

/-- Invariant of the conversion round: after `j` polls the first `j`
requested channels (in ascending order) are done and ready with their
poll results stored, the rest are still pending, and the scheduler is
idle exactly when nothing remains. -/
theorem AdcRun_inv (s0 : AdcState) (h0 : s0.idle = true) (mask : Nat)
    (results : Nat → Nat) : ∀ j : Nat,
    (∀ c, ((AdcRun s0 mask results j).needs c = true ↔
       c ∈ (reqChannels mask).drop j)) ∧
    (∀ c, ((AdcRun s0 mask results j).ready c = true ↔
       c ∈ (reqChannels mask).take j)) ∧
    (∀ i (hi : i < (reqChannels mask).length), i < j →
       (AdcRun s0 mask results j).dat ((reqChannels mask).get ⟨i, hi⟩) =
         results i) ∧
    ((AdcRun s0 mask results j).idle = true ↔
       (reqChannels mask).length ≤ j) := by
  intro j
  induction j with
  | zero =>
    obtain ⟨hn, hr, hd, hi⟩ := ADC_StartConversion_accepted s0 h0 mask
    have h00 : AdcRun s0 mask results 0 = ADC_StartConversion s0 mask := rfl
    refine ⟨?_, ?_, ?_, ?_⟩
    · intro c
      rw [h00, List.drop_zero]
      exact hn c
    · intro c
      rw [h00, List.take_zero]
      simp [hr c]
    · intro i hi2 hlt
      omega
    · rw [h00, hi]
      rw [Nat.le_zero, ← List.length_eq_zero]
  | succ j ih =>
    obtain ⟨ih1, ih2, ih3, ih4⟩ := ih
    have hstep : AdcRun s0 mask results (j + 1) =
        ADC_HousekeepingPoll (AdcRun s0 mask results j) false (results j) :=
      rfl
    by_cases hj : (reqChannels mask).length ≤ j
    · -- Already finished: the scheduler is idle, the poll is a no-op.
      have hidle : (AdcRun s0 mask results j).idle = true := ih4.mpr hj
      rw [hstep, ADC_HousekeepingPoll_idle _ _ _ hidle]
      have hdj : (reqChannels mask).drop j = [] :=
        List.drop_eq_nil_of_le hj
      have hdj1 : (reqChannels mask).drop (j + 1) = [] :=
        List.drop_eq_nil_of_le (by omega)
      have htj : (reqChannels mask).take j = reqChannels mask :=
        List.take_of_length_le hj
      have htj1 : (reqChannels mask).take (j + 1) = reqChannels mask :=
        List.take_of_length_le (by omega)
      refine ⟨?_, ?_, ?_, ?_⟩
      · intro c
        rw [hdj1, ← hdj]
        exact ih1 c
      · intro c
        rw [htj1, ← htj]
        exact ih2 c
      · intro i hi _
        exact ih3 i hi (by omega)
      · rw [ih4]
        omega
    · -- Still running: this poll completes the j-th requested channel.
      have hjlt : j < (reqChannels mask).length := by omega
      have hidle : (AdcRun s0 mask results j).idle = false := by
        have := ih4
        cases hcase : (AdcRun s0 mask results j).idle
        · rfl
        · rw [hcase] at this
          exact absurd (this.mp rfl) hj
      have hdropj : (reqChannels mask).drop j =
          (reqChannels mask).get ⟨j, hjlt⟩ :: (reqChannels mask).drop (j + 1)
          := by
        rw [List.drop_eq_getElem_cons hjlt]
        rfl
      have hpend : pendingList (AdcRun s0 mask results j) =
          (reqChannels mask).get ⟨j, hjlt⟩ ::
            (reqChannels mask).drop (j + 1) := by
        rw [← hdropj]
        exact pendingList_eq _ _
          ((List.drop_sublist j (reqChannels mask)).trans
            (reqChannels_sublist mask)) ih1
      have hpoll := ADC_HousekeepingPoll_pending_cons
        (AdcRun s0 mask results j) (results j)
        ((reqChannels mask).get ⟨j, hjlt⟩) ((reqChannels mask).drop (j + 1))
        hidle hpend
      rw [hstep, hpoll]
      set cj := (reqChannels mask).get ⟨j, hjlt⟩ with hcj
      set t := completeChan (AdcRun s0 mask results j) cj (results j) with ht
      have hfields :
          ((if ((reqChannels mask).drop (j + 1)).length = 0
            then { t with idle := true } else t).needs = t.needs) ∧
          ((if ((reqChannels mask).drop (j + 1)).length = 0
            then { t with idle := true } else t).ready = t.ready) ∧
          ((if ((reqChannels mask).drop (j + 1)).length = 0
            then { t with idle := true } else t).dat = t.dat) := by
        split
        · exact ⟨rfl, rfl, rfl⟩
        · exact ⟨rfl, rfl, rfl⟩
      have hnodup_drop : ((reqChannels mask).drop j).Nodup :=
        (List.drop_sublist j (reqChannels mask)).nodup (reqChannels_nodup mask)
      have hcj_not_mem : cj ∉ (reqChannels mask).drop (j + 1) := by
        rw [hdropj] at hnodup_drop
        exact (List.nodup_cons.mp hnodup_drop).1
      refine ⟨?_, ?_, ?_, ?_⟩
      · intro c
        rw [hfields.1]
        rw [ht]
        show (if c = cj then false else (AdcRun s0 mask results j).needs c)
            = true ↔ _
        by_cases hc : c = cj
        · rw [if_pos hc]
          subst hc
          simp [hcj_not_mem]
        · rw [if_neg hc]
          rw [ih1 c, hdropj, List.mem_cons]
          constructor
          · intro h
            exact h.resolve_left hc
          · intro h
            exact Or.inr h
      · intro c
        rw [hfields.2.1]
        rw [ht]
        show (if c = cj then true else (AdcRun s0 mask results j).ready c)
            = true ↔ _
        have htake : (reqChannels mask).take (j + 1) =
            (reqChannels mask).take j ++ [cj] := by
          rw [List.take_succ]
          congr 1
          rw [List.getElem?_eq_getElem hjlt]
          rfl
        rw [htake]
        by_cases hc : c = cj
        · rw [if_pos hc]
          subst hc
          simp
        · rw [if_neg hc]
          rw [ih2 c]
          simp [List.mem_append, hc]
      · intro i hi hlt
        rw [hfields.2.2]
        rw [ht]
        show (if (reqChannels mask).get ⟨i, hi⟩ = cj then results j
              else (AdcRun s0 mask results j).dat
                ((reqChannels mask).get ⟨i, hi⟩)) = results i
        rcases Nat.lt_succ_iff_lt_or_eq.mp hlt with hij | hij
        · rw [if_neg ?_]
          · exact ih3 i hi hij
          · intro heq
            rw [hcj] at heq
            have hfin := ((reqChannels_nodup mask).get_inj_iff).mp heq
            have : i = j := by simpa using hfin
            omega
        · subst hij
          rw [if_pos rfl]
      · by_cases hp : ((reqChannels mask).drop (j + 1)).length = 0
        · rw [if_pos hp]
          simp only [List.length_drop] at hp
          constructor
          · intro _
            omega
          · intro _
            rfl
        · rw [if_neg hp]
          simp only [List.length_drop] at hp
          have hidle2 : t.idle = false := hidle
          rw [hidle2]
          constructor
          · intro h
            exact absurd h (by simp)
          · intro h
            exact absurd h (by omega)

theorem ADC_FindReady_eq_head (s : AdcState) (l : List Nat) :
    ADC_FindReady s l = (l.filter (fun c => s.ready c)).head? := by
  induction l with
  | nil => rfl
  | cons a rest ih =>
    rw [ADC_FindReady]
    by_cases ha : s.ready a = true
    · rw [if_pos ha, List.filter_cons, if_pos (by simpa using ha)]
      rfl
    · rw [if_neg ha, List.filter_cons, if_neg (by simpa using ha)]
      exact ih

theorem readyList_nodup (s : AdcState) : (readyList s).Nodup :=
  (List.filter_sublist _).nodup adcChannels_nodup

/-- Draining an idle scheduler returns each ready channel exactly once,
in ascending channel order, with its stored value. -/
theorem ADC_ReadAll_spec : ∀ (fuel : Nat) (s : AdcState), s.idle = true →
    (readyList s).length = fuel →
    ADC_ReadAll s fuel = (readyList s).map (fun c => (s.dat c, c)) := by
  intro fuel
  induction fuel with
  | zero =>
    intro s _ hl
    have hnil : readyList s = [] := List.length_eq_zero.mp hl
    rw [hnil]
    rfl
  | succ n ih =>
    intro s h hl
    obtain ⟨c, rest, hcr⟩ : ∃ c rest, readyList s = c :: rest := by
      cases hx : readyList s with
      | nil =>
        rw [hx] at hl
        simp at hl
      | cons c rest => exact ⟨c, rest, rfl⟩
    have hfind : ADC_FindReady s adcChannels = some c := by
      rw [ADC_FindReady_eq_head s adcChannels]
      rw [show adcChannels.filter (fun x => s.ready x) = readyList s from rfl]
      rw [hcr]
      rfl
    have hcrest : c ∉ rest := by
      have := readyList_nodup s
      rw [hcr] at this
      exact (List.nodup_cons.mp this).1
    rw [ADC_ReadAll]
    unfold ADC_ReadPendingSample
    rw [if_pos h, hfind]
    have hready2 : readyList
        { s with ready := fun x => if x = c then false else s.ready x } =
        rest := by
      unfold readyList
      have hcong : adcChannels.filter
          (fun x => if x = c then false else s.ready x) =
          adcChannels.filter (fun x => (!(x == c)) && s.ready x) := by
        apply List.filter_congr
        intro x _
        by_cases hx : x = c
        · simp [hx]
        · simp [hx]
      rw [hcong, ← List.filter_filter]
      rw [show adcChannels.filter (fun x => s.ready x) = readyList s from rfl]
      rw [hcr, List.filter_cons]
      rw [if_neg (by simp)]
      apply List.filter_eq_self.mpr
      intro a ha
      simp only [Bool.not_eq_eq_eq_not, Bool.not_true, beq_eq_false_iff_ne,
        ne_eq, decide_eq_true_eq]
      intro hac
      exact hcrest (hac ▸ ha)
    have hlen2 : (readyList
        { s with ready := fun x => if x = c then false else s.ready x }).length
        = n := by
      rw [hready2]
      rw [hcr] at hl
      simpa using hl
    dsimp only
    rw [ih { s with ready := fun x => if x = c then false else s.ready x }
      h hlen2, hready2, hcr]
    rfl

/-- **C3**: for every channel mask accepted while the scheduler is idle,
`ADC_StartConversion` followed by repeated `ADC_HousekeepingPoll` calls
(with the hardware reporting completion) yields exactly one ready result
per requested in-range channel; the requested channel list is strictly
ascending, channels are serviced in that order with their poll results
stored, `idle` becomes true only once every requested channel has its
result stored, draining via `ADC_ReadPendingSample` returns them in
ascending channel order, and an `ADC_StartConversion` call made while not
idle changes nothing. -/
theorem C3_adc_scheduler (s0 : AdcState) (h0 : s0.idle = true) (mask : Nat)
    (results : Nat → Nat) :
    (∀ s : AdcState, s.idle = false → ADC_StartConversion s mask = s) ∧
    (∀ j, j < (reqChannels mask).length →
       (AdcRun s0 mask results j).idle = false) ∧
    (∀ j, (reqChannels mask).length ≤ j →
       (AdcRun s0 mask results j).idle = true) ∧
    (∀ c, ((AdcRun s0 mask results (reqChannels mask).length).ready c = true
       ↔ c ∈ reqChannels mask)) ∧
    (∀ i (hi : i < (reqChannels mask).length),
       (AdcRun s0 mask results (reqChannels mask).length).dat
         ((reqChannels mask).get ⟨i, hi⟩) = results i) ∧
    List.Pairwise (· < ·) (reqChannels mask) ∧
    ADC_ReadAll (AdcRun s0 mask results (reqChannels mask).length)
        (reqChannels mask).length =
      (reqChannels mask).map
        (fun c => ((AdcRun s0 mask results (reqChannels mask).length).dat c,
                   c)) := by
  have hready : ∀ c,
      ((AdcRun s0 mask results (reqChannels mask).length).ready c = true ↔
        c ∈ reqChannels mask) := by
    intro c
    have := (AdcRun_inv s0 h0 mask results (reqChannels mask).length).2.1 c
    rwa [List.take_length] at this
  have hidle_fin : (AdcRun s0 mask results (reqChannels mask).length).idle
      = true :=
    (AdcRun_inv s0 h0 mask results (reqChannels mask).length).2.2.2.mpr le_rfl
  have hrl : readyList (AdcRun s0 mask results (reqChannels mask).length) =
      reqChannels mask :=
    readyList_eq _ _ (reqChannels_sublist mask) hready
  refine ⟨?_, ?_, ?_, hready, ?_, ?_, ?_⟩
  · intro s hs
    unfold ADC_StartConversion
    rw [if_neg (by simp [hs])]
  · intro j hj
    have h4 := (AdcRun_inv s0 h0 mask results j).2.2.2
    cases hcase : (AdcRun s0 mask results j).idle
    · rfl
    · rw [hcase] at h4
      have := h4.mp rfl
      omega
  · intro j hj
    exact (AdcRun_inv s0 h0 mask results j).2.2.2.mpr hj
  · intro i hi
    exact (AdcRun_inv s0 h0 mask results
      (reqChannels mask).length).2.2.1 i hi hi
  · exact (List.pairwise_lt_range ADC_CHANNEL_COUNT).filter _
  · rw [ADC_ReadAll_spec (reqChannels mask).length _ hidle_fin
      (by rw [hrl]), hrl]

/-- Witness for C3: mask `0b100101` (channels 0, 2, 5) started on a
freshly initialized scheduler, with poll `j` returning `1000 + j`. -/
theorem C3_adc_scheduler_witness :
    ADC_ReInitBuffer.idle = true ∧
    ((∀ s : AdcState, s.idle = false → ADC_StartConversion s 37 = s) ∧
     (∀ j, j < (reqChannels 37).length →
        (AdcRun ADC_ReInitBuffer 37 (fun j => 1000 + j) j).idle = false) ∧
     (∀ j, (reqChannels 37).length ≤ j →
        (AdcRun ADC_ReInitBuffer 37 (fun j => 1000 + j) j).idle = true) ∧
     (∀ c, ((AdcRun ADC_ReInitBuffer 37 (fun j => 1000 + j)
          (reqChannels 37).length).ready c = true ↔ c ∈ reqChannels 37)) ∧
     (∀ i (hi : i < (reqChannels 37).length),
        (AdcRun ADC_ReInitBuffer 37 (fun j => 1000 + j)
          (reqChannels 37).length).dat
          ((reqChannels 37).get ⟨i, hi⟩) = 1000 + i) ∧
     List.Pairwise (· < ·) (reqChannels 37) ∧
     ADC_ReadAll (AdcRun ADC_ReInitBuffer 37 (fun j => 1000 + j)
         (reqChannels 37).length) (reqChannels 37).length =
       (reqChannels 37).map
         (fun c => ((AdcRun ADC_ReInitBuffer 37 (fun j => 1000 + j)
            (reqChannels 37).length).dat c, c))) :=
  ⟨rfl, C3_adc_scheduler ADC_ReInitBuffer rfl 37 (fun j => 1000 + j)⟩

/-!
## AtomicSection (workstation emulation target)

Embedded from `ATOMIC_GetCli` / `ATOMIC_ReleaseCli` in the emulation
compatibility layer.  The claims concern nesting by one logical owner, so
the `std::thread::id` bookkeeping collapses: every call is by the same
owner, and the same-owner test `0 == old_count || this_thread != owner_id`
reduces to `old_count = 0`.  `locked` models whether this owner holds the
`atomic_waiting` mutex, i.e. whether the protected resource is disabled.
The C enter returns an `atomic_state_t` token; the C exit takes it but
ignores it (source FIXME: `NONATOMIC_BLOCK` unsupported) and always
returns `ATOMIC_DONE`.
-/

def ATOMIC_DONE : Nat := 0
def ATOMIC_WANT_INTERRUPTS : Nat := 1
def ATOMIC_WANT_NO_INTERRUPTS : Nat := 2

structure AtomicState where
  owner_count : Nat
  locked : Bool
deriving DecidableEq

theorem atomicStateExt {a b : AtomicState}
    (h1 : a.owner_count = b.owner_count) (h2 : a.locked = b.locked) :
    a = b := by
  cases a
  cases b
  simp_all

/-- Mirror of `ATOMIC_GetCli` (same-owner case).  Returns the new
bookkeeping state, whether the real lock action was performed (the mutex
acquisition, skipped on nested enters), and the returned token:
`ATOMIC_WANT_NO_INTERRUPTS` iff `save_old` (restore policy) and the
resource was already owned before this enter. -/
def ATOMIC_GetCli (s : AtomicState) (save_old : Bool) :
    AtomicState × Bool × Nat :=
  let old_count := s.owner_count
  ({ owner_count := s.owner_count + 1,
     locked := s.locked || decide (old_count = 0) },
   decide (old_count = 0),
   if save_old = true ∧ 0 < old_count then ATOMIC_WANT_NO_INTERRUPTS
   else ATOMIC_WANT_INTERRUPTS)

/-- Mirror of `ATOMIC_ReleaseCli`: decrements the nesting count and
releases the mutex only at the transition to zero.  The token argument is
ignored exactly as in the source.  The second component reports whether
the real unlock action was performed. -/
def ATOMIC_ReleaseCli (s : AtomicState) (desired_state : Nat) :
    AtomicState × Bool :=
  let old_count := s.owner_count - 1
  ({ owner_count := old_count,
     locked := if old_count = 0 then false else s.locked },
   decide (old_count = 0))

/-- `k` nested enters from the same owner. -/
def atomicEnterN (s : AtomicState) (save_old : Bool) : Nat → AtomicState
  | 0 => s
  | k + 1 => (ATOMIC_GetCli (atomicEnterN s save_old k) save_old).1

/-- `k` exits from the same owner (the ignored token is passed as the
source macro does). -/
def atomicExitN (s : AtomicState) : Nat → AtomicState
  | 0 => s
  | k + 1 => (ATOMIC_ReleaseCli (atomicExitN s k) ATOMIC_WANT_INTERRUPTS).1

theorem atomicEnterN_fields (s : AtomicState) (p : Bool)
    (hl : s.locked = true) : ∀ k,
    (atomicEnterN s p k).owner_count = s.owner_count + k ∧
    (atomicEnterN s p k).locked = true := by
  intro k
  induction k with
  | zero => exact ⟨rfl, hl⟩
  | succ k ih =>
    obtain ⟨ih1, ih2⟩ := ih
    constructor
    · show (atomicEnterN s p k).owner_count + 1 = s.owner_count + (k + 1)
      omega
    · show ((atomicEnterN s p k).locked ||
        decide ((atomicEnterN s p k).owner_count = 0)) = true
      rw [ih2]
      rfl

theorem atomicExitN_fields (s : AtomicState) (hl : s.locked = true) :
    ∀ j, j < s.owner_count →
    (atomicExitN s j).owner_count = s.owner_count - j ∧
    (atomicExitN s j).locked = true := by
  intro j
  induction j with
  | zero => exact fun _ => ⟨rfl, hl⟩
  | succ j ih =>
    intro hj
    obtain ⟨ih1, ih2⟩ := ih (by omega)
    constructor
    · show (atomicExitN s j).owner_count - 1 = s.owner_count - (j + 1)
      omega
    · show (if (atomicExitN s j).owner_count - 1 = 0 then false
        else (atomicExitN s j).locked) = true
      rw [if_neg (by omega), ih2]

/-- **C7**: for every properly nested same-owner enter/exit session of any
inner depth `k`, the outermost enter performs the real lock action, every
inner enter succeeds immediately by pure count-increment with no lock
action, the resource stays disabled (locked) throughout all inner exits,
only the exit that brings the nesting count to zero performs the real
unlock, and — under either policy, in particular `restore`
(`save_old = true`) — the final exit returns the primitive exactly to its
pre-outermost-enter state. -/
theorem C7_atomic_nested_session (k : Nat) (save_old : Bool) :
    (ATOMIC_GetCli ⟨0, false⟩ save_old).2.1 = true ∧
    (ATOMIC_GetCli ⟨0, false⟩ save_old).1.locked = true ∧
    (ATOMIC_GetCli ⟨0, false⟩ save_old).1.owner_count = 1 ∧
    (ATOMIC_GetCli ⟨0, false⟩ save_old).2.2 = ATOMIC_WANT_INTERRUPTS ∧
    (∀ j, j < k →
      (ATOMIC_GetCli
        (atomicEnterN (ATOMIC_GetCli ⟨0, false⟩ save_old).1 save_old j)
        save_old).2.1 = false ∧
      (atomicEnterN (ATOMIC_GetCli ⟨0, false⟩ save_old).1 save_old
        (j + 1)).locked = true) ∧
    (∀ j, j < k →
      (ATOMIC_ReleaseCli
        (atomicExitN
          (atomicEnterN (ATOMIC_GetCli ⟨0, false⟩ save_old).1 save_old k) j)
        ATOMIC_WANT_INTERRUPTS).2 = false ∧
      (atomicExitN
        (atomicEnterN (ATOMIC_GetCli ⟨0, false⟩ save_old).1 save_old k)
        (j + 1)).locked = true) ∧
    (ATOMIC_ReleaseCli
      (atomicExitN
        (atomicEnterN (ATOMIC_GetCli ⟨0, false⟩ save_old).1 save_old k) k)
      ATOMIC_WANT_INTERRUPTS).2 = true ∧
    atomicExitN
      (atomicEnterN (ATOMIC_GetCli ⟨0, false⟩ save_old).1 save_old k)
      (k + 1) = ⟨0, false⟩ := by
  have houter1 : (ATOMIC_GetCli ⟨0, false⟩ save_old).1.locked = true := rfl
  have houter2 : (ATOMIC_GetCli ⟨0, false⟩ save_old).1.owner_count = 1 := rfl
  have henter := atomicEnterN_fields (ATOMIC_GetCli ⟨0, false⟩ save_old).1
    save_old houter1
  have henterk := henter k
  have hexit := atomicExitN_fields
    (atomicEnterN (ATOMIC_GetCli ⟨0, false⟩ save_old).1 save_old k)
    henterk.2
  refine ⟨rfl, houter1, houter2, ?_, ?_, ?_, ?_, ?_⟩
  · simp [ATOMIC_GetCli]
  · intro j hj
    constructor
    · show decide ((atomicEnterN (ATOMIC_GetCli ⟨0, false⟩ save_old).1
        save_old j).owner_count = 0) = false
      rw [(henter j).1]
      simp [houter2]
    · exact (henter (j + 1)).2
  · intro j hj
    have hcnt : (atomicEnterN (ATOMIC_GetCli ⟨0, false⟩ save_old).1 save_old
        k).owner_count = 1 + k := by
      rw [henterk.1, houter2]
    constructor
    · show decide ((atomicExitN
        (atomicEnterN (ATOMIC_GetCli ⟨0, false⟩ save_old).1 save_old k)
        j).owner_count - 1 = 0) = false
      rw [(hexit j (by omega)).1, hcnt]
      simp
      omega
    · exact (hexit (j + 1) (by omega)).2
  · have hcnt : (atomicExitN
        (atomicEnterN (ATOMIC_GetCli ⟨0, false⟩ save_old).1 save_old k)
        k).owner_count = 1 := by
      rw [(hexit k (by rw [henterk.1, houter2]; omega)).1, henterk.1, houter2]
      omega
    show decide ((atomicExitN
      (atomicEnterN (ATOMIC_GetCli ⟨0, false⟩ save_old).1 save_old k)
      k).owner_count - 1 = 0) = true
    rw [hcnt]
    rfl
  · have hcnt : (atomicExitN
        (atomicEnterN (ATOMIC_GetCli ⟨0, false⟩ save_old).1 save_old k)
        k).owner_count = 1 := by
      rw [(hexit k (by rw [henterk.1, houter2]; omega)).1, henterk.1, houter2]
      omega
    apply atomicStateExt
    · show (atomicExitN
        (atomicEnterN (ATOMIC_GetCli ⟨0, false⟩ save_old).1 save_old k)
        k).owner_count - 1 = 0
      rw [hcnt]
    · show (if (atomicExitN
        (atomicEnterN (ATOMIC_GetCli ⟨0, false⟩ save_old).1 save_old k)
        k).owner_count - 1 = 0 then false
        else (atomicExitN
          (atomicEnterN (ATOMIC_GetCli ⟨0, false⟩ save_old).1 save_old k)
          k).locked) = false
      rw [if_pos (by rw [hcnt])]

/-- Witness for C7 at inner depth 2 under the restore policy. -/
theorem C7_atomic_nested_session_witness :
    (ATOMIC_GetCli ⟨0, false⟩ true).2.1 = true ∧
    (ATOMIC_GetCli ⟨0, false⟩ true).1.locked = true ∧
    (ATOMIC_GetCli ⟨0, false⟩ true).1.owner_count = 1 ∧
    (ATOMIC_GetCli ⟨0, false⟩ true).2.2 = ATOMIC_WANT_INTERRUPTS ∧
    (∀ j, j < 2 →
      (ATOMIC_GetCli
        (atomicEnterN (ATOMIC_GetCli ⟨0, false⟩ true).1 true j)
        true).2.1 = false ∧
      (atomicEnterN (ATOMIC_GetCli ⟨0, false⟩ true).1 true
        (j + 1)).locked = true) ∧
    (∀ j, j < 2 →
      (ATOMIC_ReleaseCli
        (atomicExitN
          (atomicEnterN (ATOMIC_GetCli ⟨0, false⟩ true).1 true 2) j)
        ATOMIC_WANT_INTERRUPTS).2 = false ∧
      (atomicExitN
        (atomicEnterN (ATOMIC_GetCli ⟨0, false⟩ true).1 true 2)
        (j + 1)).locked = true) ∧
    (ATOMIC_ReleaseCli
      (atomicExitN
        (atomicEnterN (ATOMIC_GetCli ⟨0, false⟩ true).1 true 2) 2)
      ATOMIC_WANT_INTERRUPTS).2 = true ∧
    atomicExitN
      (atomicEnterN (ATOMIC_GetCli ⟨0, false⟩ true).1 true 2)
      (2 + 1) = ⟨0, false⟩ :=
  C7_atomic_nested_session 2 true

/-!
## Command parser

Embedded from `NeurApp_Parser::ParseInputLine` / `ResetState` in the
application framework.  A raw line is the list of its byte values up to
the C string's null terminator.  `this_arg1`/`this_arg2` are `uint16_t`,
so every arithmetic step reduces modulo `2^16`.  The character
classification mirrors the if/else-if chain of the source; on AVR (and
the emulation target) `char` is signed, so the `' ' >= thischar` test
also classifies bytes `≥ 128` as whitespace.
-/

def NEURAPP_CMD_CHARS : Nat := 3

inductive ParseState
  | preamble
  | opcode
  | firstgap
  | firstarg
  | secondgap
  | secondarg
  | tail
  | error
deriving DecidableEq

/-- `('a' <= thischar) && ('z' >= thischar)` etc. -/
def charIsLetter (c : Nat) : Bool :=
  decide ((97 ≤ c ∧ c ≤ 122) ∨ (65 ≤ c ∧ c ≤ 90))

/-- Case folding: `thischar -= 'a'; thischar += 'A'` on lowercase. -/
def charFold (c : Nat) : Nat :=
  if 97 ≤ c ∧ c ≤ 122 then c - 97 + 65 else c

def charIsDigit (c : Nat) : Bool :=
  (!charIsLetter c) && decide (48 ≤ c ∧ c ≤ 57)

/-- `' ' >= thischar` as the next else-if arm; with signed `char`, bytes
`≥ 128` are negative and hence also `<= ' '`. -/
def charIsWhite (c : Nat) : Bool :=
  (!charIsLetter c) && (!charIsDigit c) && decide (c ≤ 32 ∨ 128 ≤ c)

/-- Final else-if arm: `'?' == thischar`. -/
def charIsQuestion (c : Nat) : Bool :=
  (!charIsLetter c) && (!charIsDigit c) && (!charIsWhite c) &&
    decide (c = 63)

structure ParserState where
  have_command : Bool
  this_cmdname : Nat → Nat
  this_arg1 : Nat
  this_arg2 : Nat
  argsfound : Nat

/-- Mirror of `NeurApp_Parser::ResetState`. -/
def parserResetState : ParserState :=
  { have_command := false, this_cmdname := fun _ => 0,
    this_arg1 := 0, this_arg2 := 0, argsfound := 0 }

/-- The built-in help opcode `cmd_help = { 'H', 'L', 'P' }`. -/
def cmd_help : Nat → Nat :=
  fun i => if i = 0 then 72 else if i = 1 then 76 else if i = 2 then 80
           else 0

/-- Local state of one `ParseInputLine` scan: the parse-state machine
value, the opcode write index, the `saw_question` flag, and the member
fields being filled in. -/
structure ScanState where
  state : ParseState
  opidx : Nat
  saw_question : Bool
  ps : ParserState

def writeName (f : Nat → Nat) (i v : Nat) : Nat → Nat :=
  fun j => if j = i then v else f j

/-- First `switch (state)` of the scan loop: the state-machine
transition. -/
def parseTransition (st : ParseState) (c : Nat) : ParseState :=
  match st with
  | .preamble =>
    if charIsLetter c then .opcode
    else if !(charIsWhite c) then .error else st
  | .opcode =>
    if charIsWhite c then .firstgap
    else if !(charIsLetter c) then .error else st
  | .firstgap =>
    if charIsDigit c then .firstarg
    else if !(charIsWhite c) then .error else st
  | .firstarg =>
    if charIsWhite c then .secondgap
    else if !(charIsDigit c) then .error else st
  | .secondgap =>
    if charIsDigit c then .secondarg
    else if !(charIsWhite c) then .error else st
  | .secondarg =>
    if charIsWhite c then .tail
    else if !(charIsDigit c) then .error else st
  | .tail =>
    if !(charIsWhite c) then .error else st
  | .error => .error

/-- One iteration of the `ParseInputLine` scan loop: classify the
character, run the transition switch, then the data-update switch. -/
def parseScanChar (sc : ScanState) (c : Nat) : ScanState :=
  let st1 := parseTransition sc.state c
  let sq := sc.saw_question || charIsQuestion c
  match st1 with
  | .opcode =>
    if sc.opidx < NEURAPP_CMD_CHARS then
      { state := st1, opidx := sc.opidx + 1, saw_question := sq,
        ps := { sc.ps with
                have_command := true,
                this_cmdname :=
                  writeName sc.ps.this_cmdname sc.opidx (charFold c) } }
    else
      -- a fourth opcode letter: drop into the sticky error state
      { state := ParseState.error, opidx := sc.opidx, saw_question := sq,
        ps := { sc.ps with have_command := true } }
  | .firstarg =>
    { state := st1, opidx := sc.opidx, saw_question := sq,
      ps := { sc.ps with
              argsfound := 1,
              this_arg1 :=
                (sc.ps.this_arg1 * 10 % 65536 + (charFold c - 48)) % 65536 } }
  | .secondarg =>
    { state := st1, opidx := sc.opidx, saw_question := sq,
      ps := { sc.ps with
              argsfound := 2,
              this_arg2 :=
                (sc.ps.this_arg2 * 10 % 65536 + (charFold c - 48)) % 65536 } }
  | _ => { state := st1, opidx := sc.opidx, saw_question := sq, ps := sc.ps }

/-- Initial scan state of a `ParseInputLine` call (after the leading
`ResetState`). -/
def parseScanInit : ScanState :=
  { state := .preamble, opidx := 0, saw_question := false,
    ps := parserResetState }

/-- The post-scan logic of `ParseInputLine`: the `?` override (pretend we
saw `HLP` with no arguments), then the squash-on-error `ResetState`.
Returns `was_ok` and the parser member state. -/
def parseFinish (scF : ScanState) : Bool × ParserState :=
  if scF.saw_question then
    (true, { parserResetState with
             have_command := true,
             this_cmdname := cmd_help })
  else if scF.state = ParseState.error then (false, parserResetState)
  else (true, scF.ps)

/-- Mirror of `NeurApp_Parser::ParseInputLine`. -/
def ParseInputLine (rawline : List Nat) : Bool × ParserState :=
  parseFinish (rawline.foldl parseScanChar parseScanInit)

theorem parseScanChar_saw (sc : ScanState) (c : Nat) :
    (parseScanChar sc c).saw_question =
      (sc.saw_question || charIsQuestion c) := by
  unfold parseScanChar
  cases hst : parseTransition sc.state c <;>
    simp only [hst] <;>
    first
      | rfl
      | (split <;> rfl)

theorem foldl_saw_mono (line : List Nat) :
    ∀ sc : ScanState, sc.saw_question = true →
    (line.foldl parseScanChar sc).saw_question = true := by
  induction line with
  | nil => exact fun sc h => h
  | cons c rest ih =>
    intro sc h
    apply ih
    rw [parseScanChar_saw, h]
    rfl

theorem foldl_saw_of_mem (line : List Nat) :
    ∀ sc : ScanState, 63 ∈ line →
    (line.foldl parseScanChar sc).saw_question = true := by
  induction line with
  | nil =>
    intro sc h
    simp at h
  | cons c rest ih =>
    intro sc h
    rcases List.mem_cons.mp h with hc | hc
    · rw [List.foldl_cons]
      apply foldl_saw_mono
      rw [parseScanChar_saw, ← hc]
      simp [charIsQuestion, charIsLetter, charIsDigit, charIsWhite]
    · exact ih _ hc

/-- Any line containing a question mark parses as the help override:
valid, opcode `HLP`, no arguments. -/
theorem parse_question_override (line : List Nat) (h : 63 ∈ line) :
    (ParseInputLine line).1 = true ∧
    (ParseInputLine line).2.have_command = true ∧
    (ParseInputLine line).2.this_cmdname 0 = 72 ∧
    (ParseInputLine line).2.this_cmdname 1 = 76 ∧
    (ParseInputLine line).2.this_cmdname 2 = 80 ∧
    (ParseInputLine line).2.argsfound = 0 := by
  unfold ParseInputLine parseFinish
  rw [foldl_saw_of_mem line parseScanInit h]
  exact ⟨rfl, rfl, rfl, rfl, rfl, rfl⟩

/-- **C5**: the parser's Preamble/Opcode/FirstGap/FirstArg/SecondGap/
SecondArg/Tail/Error machine with uppercase folding: `"ECH 1"` parses to
opcode `ECH` with one argument equal to 1; `"ECH"` alone parses with zero
arguments; any line containing `?` is overridden to the help opcode `HLP`
with zero arguments and reported valid; `"ech 1 2 3"` (third argument)
and `"ABCD"` (fourth opcode letter) are reported invalid with all parsed
fields reset. -/
theorem C5_parser_state_machine :
    (ParseInputLine [69, 67, 72, 32, 49]).1 = true ∧
    (ParseInputLine [69, 67, 72, 32, 49]).2.have_command = true ∧
    (ParseInputLine [69, 67, 72, 32, 49]).2.this_cmdname 0 = 69 ∧
    (ParseInputLine [69, 67, 72, 32, 49]).2.this_cmdname 1 = 67 ∧
    (ParseInputLine [69, 67, 72, 32, 49]).2.this_cmdname 2 = 72 ∧
    (ParseInputLine [69, 67, 72, 32, 49]).2.argsfound = 1 ∧
    (ParseInputLine [69, 67, 72, 32, 49]).2.this_arg1 = 1 ∧
    (ParseInputLine [69, 67, 72]).1 = true ∧
    (ParseInputLine [69, 67, 72]).2.argsfound = 0 ∧
    (∀ line : List Nat, 63 ∈ line →
      (ParseInputLine line).1 = true ∧
      (ParseInputLine line).2.have_command = true ∧
      (ParseInputLine line).2.this_cmdname 0 = 72 ∧
      (ParseInputLine line).2.this_cmdname 1 = 76 ∧
      (ParseInputLine line).2.this_cmdname 2 = 80 ∧
      (ParseInputLine line).2.argsfound = 0) ∧
    (ParseInputLine [101, 99, 104, 32, 49, 32, 50, 32, 51]).1 = false ∧
    (ParseInputLine [101, 99, 104, 32, 49, 32, 50, 32, 51]).2 =
      parserResetState ∧
    (ParseInputLine [65, 66, 67, 68]).1 = false ∧
    (ParseInputLine [65, 66, 67, 68]).2 = parserResetState := by
  refine ⟨rfl, rfl, rfl, rfl, rfl, rfl, rfl, rfl, rfl,
    parse_question_override, rfl, rfl, rfl, rfl⟩

/-- Witness for the `?`-override conjunct of C5 at the concrete line
`"  ?  "` (which would otherwise end in the error state). -/
theorem C5_parser_state_machine_witness :
    63 ∈ [32, 32, 63, 32, 32] ∧
    ((ParseInputLine [32, 32, 63, 32, 32]).1 = true ∧
     (ParseInputLine [32, 32, 63, 32, 32]).2.have_command = true ∧
     (ParseInputLine [32, 32, 63, 32, 32]).2.this_cmdname 0 = 72 ∧
     (ParseInputLine [32, 32, 63, 32, 32]).2.this_cmdname 1 = 76 ∧
     (ParseInputLine [32, 32, 63, 32, 32]).2.this_cmdname 2 = 80 ∧
     (ParseInputLine [32, 32, 63, 32, 32]).2.argsfound = 0) :=
  ⟨by decide,
   C5_parser_state_machine.2.2.2.2.2.2.2.2.2.1 [32, 32, 63, 32, 32]
     (by decide)⟩

theorem upper_letter_facts (c : Nat) (h1 : 65 ≤ c) (h2 : c ≤ 90) :
    charIsLetter c = true ∧ charIsDigit c = false ∧ charIsWhite c = false ∧
    charIsQuestion c = false ∧ charFold c = c := by
  have hl : charIsLetter c = true := by
    simp only [charIsLetter, decide_eq_true_eq]
    omega
  refine ⟨hl, ?_, ?_, ?_, ?_⟩
  · simp [charIsDigit, hl]
  · simp [charIsWhite, hl]
  · simp [charIsQuestion, hl]
  · rw [charFold, if_neg]
    omega

theorem digit_facts (c : Nat) (h1 : 48 ≤ c) (h2 : c ≤ 57) :
    charIsLetter c = false ∧ charIsDigit c = true ∧ charIsWhite c = false ∧
    charIsQuestion c = false ∧ charFold c = c := by
  have hl : charIsLetter c = false := by
    simp only [charIsLetter, decide_eq_false_iff_not]
    omega
  have hd : charIsDigit c = true := by
    simp only [charIsDigit, hl, Bool.not_false, Bool.true_and,
      decide_eq_true_eq]
    omega
  refine ⟨hl, hd, ?_, ?_, ?_⟩
  · simp [charIsWhite, hd]
  · simp [charIsQuestion, hd]
  · rw [charFold, if_neg]
    omega

/-- A letter fed while in `Preamble` or `Opcode` with opcode space left:
move to / stay in `Opcode` and record the (folded) letter. -/
theorem parseScanChar_letter_step (sc : ScanState) (c : Nat)
    (h1 : 65 ≤ c) (h2 : c ≤ 90)
    (hst : sc.state = ParseState.preamble ∨ sc.state = ParseState.opcode)
    (hop : sc.opidx < NEURAPP_CMD_CHARS) :
    parseScanChar sc c =
      { state := ParseState.opcode, opidx := sc.opidx + 1,
        saw_question := sc.saw_question,
        ps := { sc.ps with
                have_command := true,
                this_cmdname := writeName sc.ps.this_cmdname sc.opidx c } }
    := by
  obtain ⟨hl, hd, hw, hq, hf⟩ := upper_letter_facts c h1 h2
  have htr : parseTransition sc.state c = ParseState.opcode := by
    rcases hst with hst | hst <;> rw [hst] <;> unfold parseTransition <;>
      simp [hl, hw]
  unfold parseScanChar
  simp only [htr, hq, hf, Bool.or_false, if_pos hop]

/-- Whitespace fed while in `Opcode`: move to `FirstGap`, no data
update. -/
theorem parseScanChar_space_opcode (sc : ScanState)
    (hst : sc.state = ParseState.opcode) :
    parseScanChar sc 32 =
      { state := ParseState.firstgap, opidx := sc.opidx,
        saw_question := sc.saw_question, ps := sc.ps } := by
  have htr : parseTransition sc.state 32 = ParseState.firstgap := by
    rw [hst]
    unfold parseTransition
    simp [charIsWhite, charIsLetter, charIsDigit]
  unfold parseScanChar
  simp only [htr]
  simp [charIsQuestion, charIsLetter, charIsDigit, charIsWhite]

/-- A digit fed while in `FirstGap`: move to `FirstArg`, set
`argsfound = 1` and start accumulating `this_arg1` (uint16). -/
theorem parseScanChar_firstgap_digit (sc : ScanState) (c : Nat)
    (h1 : 48 ≤ c) (h2 : c ≤ 57) (hst : sc.state = ParseState.firstgap) :
    parseScanChar sc c =
      { state := ParseState.firstarg, opidx := sc.opidx,
        saw_question := sc.saw_question,
        ps := { sc.ps with
                argsfound := 1,
                this_arg1 :=
                  (sc.ps.this_arg1 * 10 % 65536 + (c - 48)) % 65536 } } := by
  obtain ⟨hl, hd, hw, hq, hf⟩ := digit_facts c h1 h2
  have htr : parseTransition sc.state c = ParseState.firstarg := by
    rw [hst]
    unfold parseTransition
    simp [hd]
  unfold parseScanChar
  simp only [htr, hq, hf, Bool.or_false]

/-- A digit fed while in `FirstArg`: stay, keep accumulating (uint16). -/
theorem parseScanChar_firstarg_digit (sc : ScanState) (c : Nat)
    (h1 : 48 ≤ c) (h2 : c ≤ 57) (hst : sc.state = ParseState.firstarg) :
    parseScanChar sc c =
      { state := ParseState.firstarg, opidx := sc.opidx,
        saw_question := sc.saw_question,
        ps := { sc.ps with
                argsfound := 1,
                this_arg1 :=
                  (sc.ps.this_arg1 * 10 % 65536 + (c - 48)) % 65536 } } := by
  obtain ⟨hl, hd, hw, hq, hf⟩ := digit_facts c h1 h2
  have htr : parseTransition sc.state c = ParseState.firstarg := by
    rw [hst]
    unfold parseTransition
    simp [hw, hd]
  unfold parseScanChar
  simp only [htr, hq, hf, Bool.or_false]

/-- Feeding a run of digits in `FirstArg` stays in `FirstArg` and
accumulates `this_arg1` with a uint16 reduction at every step. -/
theorem foldl_digits_firstarg (ds : List Nat) :
    ∀ sc : ScanState, sc.state = ParseState.firstarg →
    (∀ c ∈ ds, 48 ≤ c ∧ c ≤ 57) →
    (ds.foldl parseScanChar sc).state = ParseState.firstarg ∧
    (ds.foldl parseScanChar sc).saw_question = sc.saw_question ∧
    (ds.foldl parseScanChar sc).ps.argsfound =
      (if ds.isEmpty then sc.ps.argsfound else 1) ∧
    (ds.foldl parseScanChar sc).ps.this_arg1 =
      List.foldl (fun a c => (a * 10 % 65536 + (c - 48)) % 65536)
        sc.ps.this_arg1 ds := by
  induction ds with
  | nil =>
    intro sc hst _
    exact ⟨hst, rfl, rfl, rfl⟩
  | cons c rest ih =>
    intro sc hst hd
    have hc := hd c (List.mem_cons_self c rest)
    rw [List.foldl_cons,
      parseScanChar_firstarg_digit sc c hc.1 hc.2 hst]
    obtain ⟨ih1, ih2, ih3, ih4⟩ := ih
      { state := ParseState.firstarg, opidx := sc.opidx,
        saw_question := sc.saw_question,
        ps := { sc.ps with
                argsfound := 1,
                this_arg1 :=
                  (sc.ps.this_arg1 * 10 % 65536 + (c - 48)) % 65536 } }
      rfl (fun x hx => hd x (List.mem_cons_of_mem c hx))
    refine ⟨ih1, ih2, ?_, ?_⟩
    · rw [ih3]
      by_cases hrest : rest.isEmpty <;> simp [hrest]
    · rw [ih4, List.foldl_cons]

/-- Doing the uint16 reduction at every accumulation step equals reducing
the exact decimal value once at the end. -/
theorem foldl_mod_65536 (ds : List Nat) :
    ∀ a : Nat,
    List.foldl (fun a c => (a * 10 % 65536 + (c - 48)) % 65536)
        (a % 65536) ds =
      (List.foldl (fun a c => a * 10 + (c - 48)) a ds) % 65536 := by
  induction ds with
  | nil => intro a; rfl
  | cons c rest ih =>
    intro a
    rw [List.foldl_cons, List.foldl_cons]
    have hstep : (a % 65536 * 10 % 65536 + (c - 48)) % 65536 =
        (a * 10 + (c - 48)) % 65536 := by omega
    rw [hstep]
    exact ih (a * 10 + (c - 48))

/-- **C10**: `ParseInputLine` accumulates each decimal argument into a
16-bit unsigned field with no overflow check: for every well-formed
command line `O1 O2 O3 <space> <digits>` whose argument has decimal
value `≥ 65536`, the parse is still reported valid and the stored
argument equals the written decimal value modulo `2^16`. -/
theorem C10_parser_uint16_wraparound (o1 o2 o3 : Nat)
    (ho1 : 65 ≤ o1 ∧ o1 ≤ 90) (ho2 : 65 ≤ o2 ∧ o2 ≤ 90)
    (ho3 : 65 ≤ o3 ∧ o3 ≤ 90)
    (ds : List Nat) (hne : ds ≠ [])
    (hdig : ∀ c ∈ ds, 48 ≤ c ∧ c ≤ 57)
    (hbig : 65536 ≤ List.foldl (fun a c => a * 10 + (c - 48)) 0 ds) :
    (ParseInputLine ([o1, o2, o3, 32] ++ ds)).1 = true ∧
    (ParseInputLine ([o1, o2, o3, 32] ++ ds)).2.argsfound = 1 ∧
    (ParseInputLine ([o1, o2, o3, 32] ++ ds)).2.this_arg1 =
      (List.foldl (fun a c => a * 10 + (c - 48)) 0 ds) % 65536 := by
  obtain ⟨d, rest, rfl⟩ : ∃ d rest, ds = d :: rest := by
    cases ds with
    | nil => exact absurd rfl hne
    | cons d rest => exact ⟨d, rest, rfl⟩
  have hdd := hdig d (List.mem_cons_self d rest)
  have e1 : parseScanChar parseScanInit o1 =
      { state := ParseState.opcode, opidx := 1, saw_question := false,
        ps := { have_command := true,
                this_cmdname := writeName (fun _ => 0) 0 o1,
                this_arg1 := 0, this_arg2 := 0, argsfound := 0 } } :=
    parseScanChar_letter_step parseScanInit o1 ho1.1 ho1.2 (Or.inl rfl)
      (by decide)
  have e2 : parseScanChar
      { state := ParseState.opcode, opidx := 1, saw_question := false,
        ps := { have_command := true,
                this_cmdname := writeName (fun _ => 0) 0 o1,
                this_arg1 := 0, this_arg2 := 0, argsfound := 0 } } o2 =
      { state := ParseState.opcode, opidx := 2, saw_question := false,
        ps := { have_command := true,
                this_cmdname := writeName (writeName (fun _ => 0) 0 o1) 1 o2,
                this_arg1 := 0, this_arg2 := 0, argsfound := 0 } } :=
    parseScanChar_letter_step
      { state := ParseState.opcode, opidx := 1, saw_question := false,
        ps := { have_command := true,
                this_cmdname := writeName (fun _ => 0) 0 o1,
                this_arg1 := 0, this_arg2 := 0, argsfound := 0 } }
      o2 ho2.1 ho2.2 (Or.inr rfl)
      (by show (1 : Nat) < NEURAPP_CMD_CHARS; decide)
  have e3 : parseScanChar
      { state := ParseState.opcode, opidx := 2, saw_question := false,
        ps := { have_command := true,
                this_cmdname := writeName (writeName (fun _ => 0) 0 o1) 1 o2,
                this_arg1 := 0, this_arg2 := 0, argsfound := 0 } } o3 =
      { state := ParseState.opcode, opidx := 3, saw_question := false,
        ps := { have_command := true,
                this_cmdname :=
                  writeName (writeName (writeName (fun _ => 0) 0 o1) 1 o2)
                    2 o3,
                this_arg1 := 0, this_arg2 := 0, argsfound := 0 } } :=
    parseScanChar_letter_step
      { state := ParseState.opcode, opidx := 2, saw_question := false,
        ps := { have_command := true,
                this_cmdname := writeName (writeName (fun _ => 0) 0 o1) 1 o2,
                this_arg1 := 0, this_arg2 := 0, argsfound := 0 } }
      o3 ho3.1 ho3.2 (Or.inr rfl)
      (by show (2 : Nat) < NEURAPP_CMD_CHARS; decide)
  have e4 : parseScanChar
      { state := ParseState.opcode, opidx := 3, saw_question := false,
        ps := { have_command := true,
                this_cmdname :=
                  writeName (writeName (writeName (fun _ => 0) 0 o1) 1 o2)
                    2 o3,
                this_arg1 := 0, this_arg2 := 0, argsfound := 0 } } 32 =
      { state := ParseState.firstgap, opidx := 3, saw_question := false,
        ps := { have_command := true,
                this_cmdname :=
                  writeName (writeName (writeName (fun _ => 0) 0 o1) 1 o2)
                    2 o3,
                this_arg1 := 0, this_arg2 := 0, argsfound := 0 } } :=
    parseScanChar_space_opcode _ rfl
  have e5 : parseScanChar
      { state := ParseState.firstgap, opidx := 3, saw_question := false,
        ps := { have_command := true,
                this_cmdname :=
                  writeName (writeName (writeName (fun _ => 0) 0 o1) 1 o2)
                    2 o3,
                this_arg1 := 0, this_arg2 := 0, argsfound := 0 } } d =
      { state := ParseState.firstarg, opidx := 3, saw_question := false,
        ps := { have_command := true,
                this_cmdname :=
                  writeName (writeName (writeName (fun _ => 0) 0 o1) 1 o2)
                    2 o3,
                this_arg1 := (0 * 10 % 65536 + (d - 48)) % 65536,
                this_arg2 := 0, argsfound := 1 } } :=
    parseScanChar_firstgap_digit _ d hdd.1 hdd.2 rfl
  obtain ⟨hf1, hf2, hf3, hf4⟩ := foldl_digits_firstarg rest
    { state := ParseState.firstarg, opidx := 3, saw_question := false,
      ps := { have_command := true,
              this_cmdname :=
                writeName (writeName (writeName (fun _ => 0) 0 o1) 1 o2)
                  2 o3,
              this_arg1 := (0 * 10 % 65536 + (d - 48)) % 65536,
              this_arg2 := 0, argsfound := 1 } }
    rfl (fun x hx => hdig x (List.mem_cons_of_mem d hx))
  unfold ParseInputLine
  rw [show ([o1, o2, o3, 32] ++ d :: rest) =
    o1 :: o2 :: o3 :: 32 :: d :: rest from rfl]
  rw [List.foldl_cons, e1, List.foldl_cons, e2, List.foldl_cons, e3,
    List.foldl_cons, e4, List.foldl_cons, e5]
  unfold parseFinish
  rw [hf2]
  rw [if_neg (by simp)]
  rw [if_neg (by rw [hf1]; intro hcontra; cases hcontra)]
  refine ⟨rfl, ?_, ?_⟩
  · rw [hf3]
    by_cases hrest : rest.isEmpty <;> simp [hrest]
  · rw [hf4]
    have h0 : ((0 : Nat) * 10 % 65536 + (d - 48)) % 65536 =
        ((0 * 10 + (d - 48)) % 65536) := by omega
    rw [show ({ have_command := true,
                this_cmdname :=
                  writeName (writeName (writeName (fun _ => 0) 0 o1) 1 o2)
                    2 o3,
                this_arg1 := (0 * 10 % 65536 + (d - 48)) % 65536,
                this_arg2 := 0, argsfound := 1 } : ParserState).this_arg1 =
      (0 * 10 % 65536 + (d - 48)) % 65536 from rfl]
    rw [h0, foldl_mod_65536 rest (0 * 10 + (d - 48)), List.foldl_cons]

/-- Witness for C10: the line `"ABC 65536"`; the stored argument is
`65536 % 2^16 = 0` while the parse is reported valid. -/
theorem C10_parser_uint16_wraparound_witness :
    ((65 ≤ 65 ∧ 65 ≤ 90) ∧ (65 ≤ 66 ∧ 66 ≤ 90) ∧ (65 ≤ 67 ∧ 67 ≤ 90) ∧
     ([54, 53, 53, 51, 54] : List Nat) ≠ [] ∧
     (∀ c ∈ ([54, 53, 53, 51, 54] : List Nat), 48 ≤ c ∧ c ≤ 57) ∧
     65536 ≤ List.foldl (fun a c => a * 10 + (c - 48)) 0
       [54, 53, 53, 51, 54]) ∧
    ((ParseInputLine ([65, 66, 67, 32] ++ [54, 53, 53, 51, 54])).1 = true ∧
     (ParseInputLine ([65, 66, 67, 32] ++ [54, 53, 53, 51, 54])).2.argsfound
       = 1 ∧
     (ParseInputLine ([65, 66, 67, 32] ++ [54, 53, 53, 51, 54])).2.this_arg1
       = (List.foldl (fun a c => a * 10 + (c - 48)) 0
           [54, 53, 53, 51, 54]) % 65536) :=
  ⟨⟨by decide, by decide, by decide, by decide, by decide, by decide⟩,
   C10_parser_uint16_wraparound 65 66 67 (by decide) (by decide) (by decide)
     [54, 53, 53, 51, 54] (by decide) (by decide) (by decide)⟩

/-!
## Event-handler registry: lifecycle hooks and command dispatch

Embedded from `NeurApp_Base::ReInitState`, `NeurApp_Base::DoPolling` and
`NeurApp_Base::CommandMatch`.  Handlers are identified by their (nonzero)
pointer value; a Lean list holds exactly the rows before the
NULL-handler terminator, and a command list holds exactly the entries
before the negative-`argcount` terminator.
-/

structure CmdName3 where
  c0 : Nat
  c1 : Nat
  c2 : Nat
deriving DecidableEq

/-- Mirror of `NeurApp_Base::CommandMatch`: character-wise comparison of
the `NEURAPP_CMD_CHARS = 3` name characters. -/
def CommandMatch (first second : CmdName3) : Bool :=
  decide (first.c0 = second.c0) && decide (first.c1 = second.c1) &&
    decide (first.c2 = second.c2)

structure CmdListRow where
  name : CmdName3
  opcode : Nat
  argcount : Nat
deriving DecidableEq

structure EventHandlerRow where
  handler : Nat
  cmdlist : Option (List CmdListRow)
deriving DecidableEq

/-- The sequence of handlers whose `InitState` hook one `ReInitState`
call invokes: the source iterates every row with NO adjacent-duplicate
skip ("Duplicate handler pointers may exist.  Multiple calls are okay,
so don't worry about special-casing them"). -/
def initStateCalls (lut : List EventHandlerRow) : List Nat :=
  lut.map (fun r => r.handler)

def dedupCallsAux (prev : Nat) : List EventHandlerRow → List Nat
  | [] => []
  | r :: rest =>
    if r.handler = prev then dedupCallsAux r.handler rest
    else r.handler :: dedupCallsAux r.handler rest

/-- The sequence of handlers a deduplicating hook walk invokes
(`InitHardware`, `HandleTick_ISR`, `HandlePollHighPriority_ISR`,
help-screen printing, report generation, `HandlePolling`): a row is
skipped when `1 <= hidx` and its handler equals the immediately
preceding row's handler. -/
def dedupCalls : List EventHandlerRow → List Nat
  | [] => []
  | r :: rest => r.handler :: dedupCallsAux r.handler rest

inductive DispatchResult
  | invoked (handler opcode arg1 arg2 : Nat)
  | badCommand
deriving DecidableEq

/-- Mirror of the inner `for (cidx ...)` scan of one row's command list
in `NeurApp_Base::DoPolling`: the first name match sets `found` (ending
the whole search); a matching entry with the right `argcount` invokes the
row's handler with the entry's opcode, otherwise the command is
malformed (`bad_command`, reported via `PrintShortHelp`). -/
def scanCmdList (handler : Nat) (cmd : CmdName3) (argcount arg1 arg2 : Nat) :
    List CmdListRow → Option DispatchResult
  | [] => none
  | e :: rest =>
    if CommandMatch cmd e.name then
      if argcount = e.argcount then
        some (.invoked handler e.opcode arg1 arg2)
      else some .badCommand
    else scanCmdList handler cmd argcount arg1 arg2 rest

/-- Mirror of the outer registry scan of `NeurApp_Base::DoPolling` (the
non-built-in branch): rows in order, `NULL` command lists skipped; if no
entry anywhere matches, `bad_command` (the same `PrintShortHelp`
diagnostic — never fatal). -/
def dispatchRegistry (lut : List EventHandlerRow) (cmd : CmdName3)
    (argcount arg1 arg2 : Nat) : DispatchResult :=
  match lut with
  | [] => .badCommand
  | r :: rest =>
    match r.cmdlist with
    | none => dispatchRegistry rest cmd argcount arg1 arg2
    | some cl =>
      match scanCmdList r.handler cmd argcount arg1 arg2 cl with
      | some res => res
      | none => dispatchRegistry rest cmd argcount arg1 arg2

/-- Follows the spec's words, for the refinement comparison of C9: the
flattened scan order of (handler, entry) pairs. -/
def scanOrderSpec (lut : List EventHandlerRow) : List (Nat × CmdListRow) :=
  (lut.map (fun r => (r.cmdlist.getD []).map (fun e => (r.handler, e)))).flatten

/-- Follows the spec's words, for the refinement comparison of C9: find
the first entry in scan order whose name matches; on an argument-count
match invoke that row's handler with the entry's opcode, otherwise (and
when nothing matches) reject via the short-help diagnostic. -/
def specDispatch (lut : List EventHandlerRow) (cmd : CmdName3)
    (argcount arg1 arg2 : Nat) : DispatchResult :=
  match (scanOrderSpec lut).find? (fun pe => CommandMatch cmd pe.2.name) with
  | none => .badCommand
  | some pe =>
    if argcount = pe.2.argcount then
      .invoked pe.1 pe.2.opcode arg1 arg2
    else .badCommand

theorem scanCmdList_eq_find (handler : Nat) (cmd : CmdName3)
    (argcount arg1 arg2 : Nat) (cl : List CmdListRow) :
    scanCmdList handler cmd argcount arg1 arg2 cl =
      (cl.find? (fun e => CommandMatch cmd e.name)).map
        (fun e => if argcount = e.argcount then
            .invoked handler e.opcode arg1 arg2
          else .badCommand) := by
  induction cl with
  | nil => rfl
  | cons e rest ih =>
    rw [scanCmdList, List.find?_cons]
    by_cases he : CommandMatch cmd e.name
    · rw [if_pos he]
      simp only [he, if_true]
      by_cases hac : argcount = e.argcount <;> simp [hac]
    · rw [if_neg he]
      have : CommandMatch cmd e.name = false := by
        cases h : CommandMatch cmd e.name
        · rfl
        · exact absurd h he
      simp [this, ih]

/-- **C9**: registry command dispatch scans rows and entries in order and
the first name match ends the search: equal declared and parsed argument
counts invoke that row's handler with the entry's opcode and both
arguments; a mismatch rejects the command as malformed via the short-help
diagnostic with no further searching; no match anywhere is reported
unrecognized via the same diagnostic — in all cases the result is either
an invocation or that diagnostic, never a fatal outcome. -/
theorem C9_dispatch_first_match (lut : List EventHandlerRow)
    (cmd : CmdName3) (argcount arg1 arg2 : Nat) :
    dispatchRegistry lut cmd argcount arg1 arg2 =
      specDispatch lut cmd argcount arg1 arg2 := by
  induction lut with
  | nil => rfl
  | cons r rest ih =>
    rw [dispatchRegistry]
    unfold specDispatch scanOrderSpec
    rw [List.map_cons, List.flatten_cons, List.find?_append]
    cases hcl : r.cmdlist with
    | none =>
      simp only [hcl, Option.getD_none, List.map_nil, List.find?_nil,
        Option.none_orElse]
      exact ih
    | some cl =>
      simp only [hcl, Option.getD_some]
      rw [scanCmdList_eq_find]
      cases hfind : cl.find? (fun e => CommandMatch cmd e.name) with
      | none =>
        have hmapfind : (cl.map (fun e => (r.handler, e))).find?
            (fun pe => CommandMatch cmd pe.2.name) = none := by
          rw [List.find?_map]
          show (cl.find? (fun e => CommandMatch cmd e.name)).map
            (fun e => (r.handler, e)) = none
          rw [hfind]
          rfl
        rw [hmapfind]
        exact ih
      | some e =>
        have hmapfind : (cl.map (fun e => (r.handler, e))).find?
            (fun pe => CommandMatch cmd pe.2.name) = some (r.handler, e)
            := by
          rw [List.find?_map]
          show (cl.find? (fun e => CommandMatch cmd e.name)).map
            (fun e => (r.handler, e)) = some (r.handler, e)
          rw [hfind]
          rfl
        rw [hmapfind]
        rfl

/-- Concrete two-row registry for C1: the same handler reference (7) in
two adjacent rows, with command `AAA` in the first row's list and `BBB`
only in the second row's list. -/
def c1RowA : EventHandlerRow := ⟨7, some [⟨⟨65, 65, 65⟩, 10, 0⟩]⟩

def c1RowB : EventHandlerRow := ⟨7, some [⟨⟨66, 66, 66⟩, 20, 1⟩]⟩

/-- **C1 counterexample**: with two adjacent rows holding the same
handler reference, one soft reset (`ReInitState`) invokes that handler's
`InitState` hook TWICE — not "exactly once per reset" as claimed — since
the source iterates every row without the adjacent-duplicate skip.  (The
deduplicating walk used by the other lifecycle hooks does yield a single
call, and the `BBB` command known only to the second row is still
dispatched to handler 7.) -/
theorem C1_counterexample :
    (initStateCalls [c1RowA, c1RowB]).count 7 = 2 ∧
    ¬ (initStateCalls [c1RowA, c1RowB]).count 7 = 1 ∧
    dedupCalls [c1RowA, c1RowB] = [7] ∧
    dispatchRegistry [c1RowA, c1RowB] ⟨66, 66, 66⟩ 1 5 6 =
      .invoked 7 20 5 6 := by
  refine ⟨rfl, ?_, rfl, rfl⟩
  decide

theorem CommandMatch_self (n : CmdName3) : CommandMatch n n = true := by
  simp [CommandMatch]

/-- **C1 amended**: for a registry of two adjacent rows holding the same
handler reference, a soft reset invokes that handler's `init_state` hook
once per ROW — twice per reset (`ReInitState` deliberately does not
dedupe; the deduplicating walk used by the other lifecycle hooks yields
one call) — while a command whose name appears only in the second row's
command list is still dispatched to that handler. -/
theorem C1_soft_reset_init_state_per_row (hid : Nat) (e1 e2 : CmdListRow)
    (arg1 arg2 : Nat)
    (hnm : CommandMatch e2.name e1.name = false) :
    initStateCalls [⟨hid, some [e1]⟩, ⟨hid, some [e2]⟩] = [hid, hid] ∧
    dedupCalls [⟨hid, some [e1]⟩, ⟨hid, some [e2]⟩] = [hid] ∧
    dispatchRegistry [⟨hid, some [e1]⟩, ⟨hid, some [e2]⟩]
      e2.name e2.argcount arg1 arg2 =
        .invoked hid e2.opcode arg1 arg2 := by
  refine ⟨rfl, ?_, ?_⟩
  · rw [dedupCalls, dedupCallsAux, if_pos rfl, dedupCallsAux]
  · rw [dispatchRegistry]
    show (match scanCmdList hid e2.name e2.argcount arg1 arg2 [e1] with
      | some res => res
      | none => dispatchRegistry [⟨hid, some [e2]⟩]
          e2.name e2.argcount arg1 arg2) = _
    rw [scanCmdList, if_neg (by rw [hnm]; intro h; cases h), scanCmdList]
    show dispatchRegistry [⟨hid, some [e2]⟩]
      e2.name e2.argcount arg1 arg2 = _
    rw [dispatchRegistry]
    show (match scanCmdList hid e2.name e2.argcount arg1 arg2 [e2] with
      | some res => res
      | none => dispatchRegistry [] e2.name e2.argcount arg1 arg2) = _
    rw [scanCmdList, if_pos (CommandMatch_self e2.name), if_pos rfl]

/-- Witness for the amended C1 theorem at the concrete two-row
registry. -/
theorem C1_soft_reset_init_state_per_row_witness :
    CommandMatch (⟨66, 66, 66⟩ : CmdName3) (⟨65, 65, 65⟩ : CmdName3)
      = false ∧
    (initStateCalls [c1RowA, c1RowB] = [7, 7] ∧
     dedupCalls [c1RowA, c1RowB] = [7] ∧
     dispatchRegistry [c1RowA, c1RowB] ⟨66, 66, 66⟩ 1 5 6 =
       .invoked 7 20 5 6) :=
  ⟨by decide,
   C1_soft_reset_init_state_per_row 7 ⟨⟨65, 65, 65⟩, 10, 0⟩
     ⟨⟨66, 66, 66⟩, 20, 1⟩ 5 6 (by decide)⟩

/-!
## Report queue

Embedded from the report-handling part of `NeurApp_Base::DoPolling`.
`UART_IsSendInProgress()` is passed in as `sendInProgress`;
`UART_QueueSend(reportqueue[report_read_ptr])` is an external
transmit start with no effect on this state beyond `transmit_running`.
A handler's `MakeReportString` calls are abstracted as the list of slot
contents it would produce this cycle (returning `false` = empty list);
calling the generator writes its message into the current write slot,
whose last byte is then forcibly zeroed.
-/

def NEURAPP_REPORT_QUEUE_LENGTH : Nat := 4
def NEURAPP_REPORT_BUFFER_CHARS : Nat := 90

structure ReportState where
  report_read_ptr : Nat
  report_write_ptr : Nat
  report_count : Nat
  transmit_running : Bool
  reportqueue : Nat → Nat → Nat

/-- Mirror of the retire step: "If we were transmitting a string, make a
note that we\'ve finished" — clear `transmit_running`, decrement the
count, advance `report_read_ptr` around the ring. -/
def reportRetire (s : ReportState) : ReportState :=
  { s with
    transmit_running := false,
    report_count := s.report_count - 1,
    report_read_ptr :=
      if s.report_read_ptr + 1 ≥ NEURAPP_REPORT_QUEUE_LENGTH then 0
      else s.report_read_ptr + 1 }

/-- Mirror of the "send the next pending string if we can" step. -/
def reportSendPhase (s : ReportState) (sendInProgress : Bool) :
    ReportState :=
  if 0 < s.report_count then
    if sendInProgress = false then
      let s1 := if s.transmit_running then reportRetire s else s
      -- "If we still have a pending string, queue it to be transmitted."
      if 0 < s1.report_count then { s1 with transmit_running := true }
      else s1
    else s
  else s

/-- Mirror of one slot write in the generation loop: the generator\'s
message lands in the write slot, whose last byte is forcibly zeroed, and
the queue bookkeeping advances. -/
def reportWriteSlot (s : ReportState) (m : Nat → Nat) : ReportState :=
  { s with
    reportqueue := fun k =>
      if k = s.report_write_ptr then
        fun i => if i = NEURAPP_REPORT_BUFFER_CHARS - 1 then 0 else m i
      else s.reportqueue k,
    report_count := s.report_count + 1,
    report_write_ptr :=
      if s.report_write_ptr + 1 ≥ NEURAPP_REPORT_QUEUE_LENGTH then 0
      else s.report_write_ptr + 1 }

/-- Mirror of the per-handler `while (report_count < LENGTH &&
MakeReportString(...))` loop: the generator is only invoked while a free
slot exists; leftover messages are simply not requested. -/
def reportGenLoop : List (Nat → Nat) → ReportState → ReportState
  | [], s => s
  | m :: rest, s =>
    if s.report_count < NEURAPP_REPORT_QUEUE_LENGTH then
      reportGenLoop rest (reportWriteSlot s m)
    else s

/-- Mirror of the "queue new report strings" walk over the registry rows
(with the adjacent-duplicate handler skip): `rows` pairs each row\'s
handler reference with the messages it would generate this cycle. -/
def reportGenPhase (prev : Option Nat) :
    List (Nat × List (Nat → Nat)) → ReportState → ReportState
  | [], s => s
  | (h, msgs) :: rest, s =>
    if some h = prev then reportGenPhase (some h) rest s
    else reportGenPhase (some h) rest (reportGenLoop msgs s)

/-- One polling cycle\'s report handling: transmit bookkeeping, then
report generation. -/
def reportCycle (rows : List (Nat × List (Nat → Nat))) (s : ReportState)
    (sendInProgress : Bool) : ReportState :=
  reportGenPhase none rows (reportSendPhase s sendInProgress)

/-- Invariant of the report queue: the count is bounded by the queue
length, both pointers are in range and consistent
(`write = read + count` on the ring), and every filled slot is
null-terminated at its last byte. -/
def ReportInv (s : ReportState) : Prop :=
  s.report_count ≤ NEURAPP_REPORT_QUEUE_LENGTH ∧
  s.report_read_ptr < NEURAPP_REPORT_QUEUE_LENGTH ∧
  s.report_write_ptr < NEURAPP_REPORT_QUEUE_LENGTH ∧
  s.report_write_ptr =
    (s.report_read_ptr + s.report_count) % NEURAPP_REPORT_QUEUE_LENGTH ∧
  ∀ j < s.report_count,
    s.reportqueue
      ((s.report_read_ptr + j) % NEURAPP_REPORT_QUEUE_LENGTH)
      (NEURAPP_REPORT_BUFFER_CHARS - 1) = 0

theorem reportSendPhase_busy (s : ReportState) :
    reportSendPhase s true = s := by
  unfold reportSendPhase
  split
  · rw [if_neg (by simp)]
  · rfl

theorem reportRetire_read_ptr (s : ReportState)
    (h2 : s.report_read_ptr < NEURAPP_REPORT_QUEUE_LENGTH) :
    (reportRetire s).report_read_ptr =
      (s.report_read_ptr + 1) % NEURAPP_REPORT_QUEUE_LENGTH := by
  simp only [NEURAPP_REPORT_QUEUE_LENGTH] at h2 ⊢
  show (if s.report_read_ptr + 1 ≥ 4 then 0 else s.report_read_ptr + 1) = _
  split <;> omega

theorem reportRetire_inv (s : ReportState) (h : ReportInv s)
    (hc : 0 < s.report_count) : ReportInv (reportRetire s) := by
  obtain ⟨h1, h2, h3, h4, h5⟩ := h
  have hr := reportRetire_read_ptr s h2
  unfold ReportInv at *
  simp only [NEURAPP_REPORT_QUEUE_LENGTH, NEURAPP_REPORT_BUFFER_CHARS]
    at h1 h2 h3 h4 h5 hr ⊢
  refine ⟨?_, ?_, ?_, ?_, ?_⟩
  · show s.report_count - 1 ≤ 4
    omega
  · rw [hr]
    omega
  · exact h3
  · show s.report_write_ptr =
      ((reportRetire s).report_read_ptr + (s.report_count - 1)) % 4
    rw [hr, h4]
    omega
  · intro j hj
    have hj2 : j < s.report_count - 1 := hj
    show s.reportqueue (((reportRetire s).report_read_ptr + j) % 4) 89 = 0
    rw [hr]
    have harith : ((s.report_read_ptr + 1) % 4 + j) % 4 =
        (s.report_read_ptr + (j + 1)) % 4 := by omega
    rw [harith]
    exact h5 (j + 1) (by omega)

theorem reportSendPhase_inv (s : ReportState) (b : Bool)
    (h : ReportInv s) :
    ReportInv (reportSendPhase s b) ∧
    (reportSendPhase s b).report_count ≤ s.report_count ∧
    ((reportSendPhase s b).report_read_ptr ≠ s.report_read_ptr →
      b = false ∧ s.transmit_running = true ∧ 0 < s.report_count) := by
  unfold reportSendPhase
  by_cases hc : 0 < s.report_count
  · rw [if_pos hc]
    cases b with
    | true =>
      rw [if_neg (by simp)]
      exact ⟨h, le_rfl, fun hcon => absurd rfl hcon⟩
    | false =>
      rw [if_pos rfl]
      by_cases ht : s.transmit_running = true
      · simp only [ht, if_true]
        have hri := reportRetire_inv s h hc
        split
        · refine ⟨hri, ?_, fun _ => ⟨trivial, trivial, hc⟩⟩
          show s.report_count - 1 ≤ s.report_count
          omega
        · refine ⟨hri, ?_, fun _ => ⟨trivial, trivial, hc⟩⟩
          show s.report_count - 1 ≤ s.report_count
          omega
      · have ht2 : s.transmit_running = false := by
          cases hb : s.transmit_running
          · rfl
          · exact absurd hb ht
        simp only [ht2, Bool.false_eq_true, if_false]
        rw [if_pos hc]
        exact ⟨h, le_rfl, fun hcon => absurd rfl hcon⟩
  · rw [if_neg hc]
    exact ⟨h, le_rfl, fun hcon => absurd rfl hcon⟩

theorem reportWriteSlot_inv (s : ReportState) (m : Nat → Nat)
    (h : ReportInv s)
    (hc : s.report_count < NEURAPP_REPORT_QUEUE_LENGTH) :
    ReportInv (reportWriteSlot s m) := by
  obtain ⟨h1, h2, h3, h4, h5⟩ := h
  unfold ReportInv at *
  simp only [NEURAPP_REPORT_QUEUE_LENGTH, NEURAPP_REPORT_BUFFER_CHARS]
    at h1 h2 h3 h4 h5 hc ⊢
  have hw : (reportWriteSlot s m).report_write_ptr =
      (s.report_write_ptr + 1) % 4 := by
    show (if s.report_write_ptr + 1 ≥ 4 then 0 else s.report_write_ptr + 1)
      = _
    split <;> omega
  refine ⟨?_, h2, ?_, ?_, ?_⟩
  · show s.report_count + 1 ≤ 4
    omega
  · rw [hw]
    omega
  · show (reportWriteSlot s m).report_write_ptr =
      (s.report_read_ptr + (s.report_count + 1)) % 4
    rw [hw, h4]
    omega
  · intro j hj
    have hj2 : j < s.report_count + 1 := hj
    show (fun k =>
      if k = s.report_write_ptr then
        (fun i => if i = 90 - 1 then 0 else m i)
      else s.reportqueue k) ((s.report_read_ptr + j) % 4) 89 = 0
    by_cases hjc : j = s.report_count
    · subst hjc
      rw [← h4]
      simp
    · have hjlt : j < s.report_count := by omega
      have hne : (s.report_read_ptr + j) % 4 ≠ s.report_write_ptr := by
        rw [h4]
        omega
      simp only [if_neg hne]
      exact h5 j hjlt

theorem reportGenLoop_full (msgs : List (Nat → Nat)) (s : ReportState)
    (h : ¬(s.report_count < NEURAPP_REPORT_QUEUE_LENGTH)) :
    reportGenLoop msgs s = s := by
  cases msgs with
  | nil => rfl
  | cons m rest =>
    rw [reportGenLoop, if_neg h]

theorem reportGenLoop_inv (msgs : List (Nat → Nat)) :
    ∀ s : ReportState, ReportInv s →
    ReportInv (reportGenLoop msgs s) ∧
    (reportGenLoop msgs s).report_count =
      min NEURAPP_REPORT_QUEUE_LENGTH (s.report_count + msgs.length) ∧
    (reportGenLoop msgs s).report_read_ptr = s.report_read_ptr ∧
    (reportGenLoop msgs s).transmit_running = s.transmit_running := by
  induction msgs with
  | nil =>
    intro s h
    refine ⟨h, ?_, rfl, rfl⟩
    show s.report_count = min NEURAPP_REPORT_QUEUE_LENGTH (s.report_count + 0)
    have h1 := h.1
    simp only [NEURAPP_REPORT_QUEUE_LENGTH] at h1 ⊢
    omega
  | cons m rest ih =>
    intro s h
    rw [reportGenLoop]
    by_cases hc : s.report_count < NEURAPP_REPORT_QUEUE_LENGTH
    · rw [if_pos hc]
      obtain ⟨ih1, ih2, ih3, ih4⟩ := ih (reportWriteSlot s m)
        (reportWriteSlot_inv s m h hc)
      refine ⟨ih1, ?_, ih3, ih4⟩
      rw [ih2]
      show min NEURAPP_REPORT_QUEUE_LENGTH
        (s.report_count + 1 + rest.length) = _
      simp only [NEURAPP_REPORT_QUEUE_LENGTH, List.length_cons]
      omega
    · rw [if_neg hc]
      have h1 := h.1
      simp only [NEURAPP_REPORT_QUEUE_LENGTH] at h1 hc ⊢
      refine ⟨h, ?_, trivial, trivial⟩
      simp only [List.length_cons]
      omega

theorem reportGenPhase_inv (rows : List (Nat × List (Nat → Nat))) :
    ∀ (prev : Option Nat) (s : ReportState), ReportInv s →
    ReportInv (reportGenPhase prev rows s) ∧
    (reportGenPhase prev rows s).report_read_ptr = s.report_read_ptr ∧
    (reportGenPhase prev rows s).transmit_running = s.transmit_running := by
  induction rows with
  | nil => exact fun prev s h => ⟨h, rfl, rfl⟩
  | cons row rest ih =>
    intro prev s h
    obtain ⟨hh, hval⟩ := row
    rw [reportGenPhase]
    by_cases hskip : some hh = prev
    · rw [if_pos hskip]
      exact ih (some hh) s h
    · rw [if_neg hskip]
      obtain ⟨g1, _, g3, g4⟩ := reportGenLoop_inv hval s h
      obtain ⟨i1, i2, i3⟩ := ih (some hh) (reportGenLoop hval s) g1
      exact ⟨i1, by rw [i2, g3], by rw [i3, g4]⟩

/-- **C8**: report handling never blocks and keeps
`0 ≤ report_count ≤ NEURAPP_REPORT_QUEUE_LENGTH` with consistent queue
pointers and every filled slot forcibly null-terminated at its last
byte; report generators are invoked only while a free slot exists and
excess messages are dropped (the resulting count is the minimum of the
queue length and count-plus-offered); and the oldest slot is retired
(read pointer advanced, count decremented) only when the serial channel
reports that no send is in progress and a transmission was outstanding.
(`report_count : Nat`, so `0 ≤ report_count` holds by type.) -/
theorem C8_report_queue_invariants (s : ReportState) (h : ReportInv s)
    (rows : List (Nat × List (Nat → Nat))) (sendInProgress : Bool) :
    ReportInv (reportCycle rows s sendInProgress) ∧
    (sendInProgress = true → reportSendPhase s sendInProgress = s) ∧
    ((reportCycle rows s sendInProgress).report_read_ptr ≠
        s.report_read_ptr →
      sendInProgress = false ∧ s.transmit_running = true ∧
        0 < s.report_count) ∧
    (∀ (msgs : List (Nat → Nat)) (s2 : ReportState),
      ¬(s2.report_count < NEURAPP_REPORT_QUEUE_LENGTH) →
      reportGenLoop msgs s2 = s2) ∧
    (∀ (msgs : List (Nat → Nat)) (s2 : ReportState), ReportInv s2 →
      (reportGenLoop msgs s2).report_count =
        min NEURAPP_REPORT_QUEUE_LENGTH (s2.report_count + msgs.length))
    := by
  obtain ⟨p1, p2, p3⟩ := reportSendPhase_inv s sendInProgress h
  obtain ⟨g1, g2, g3⟩ := reportGenPhase_inv rows none
    (reportSendPhase s sendInProgress) p1
  refine ⟨g1, ?_, ?_, ?_, ?_⟩
  · intro hb
    rw [hb]
    exact reportSendPhase_busy s
  · intro hne
    apply p3
    intro heq
    rw [reportCycle] at hne
    rw [g2, heq] at hne
    exact hne rfl
  · exact fun msgs s2 h2 => reportGenLoop_full msgs s2 h2
  · exact fun msgs s2 h2 => (reportGenLoop_inv msgs s2 h2).2.1

/-- Witness for C8: an empty, freshly reset queue receiving two messages
from one handler while no send is in progress. -/
theorem C8_report_queue_invariants_witness :
    ReportInv ⟨0, 0, 0, false, fun _ _ => 0⟩ ∧
    (ReportInv (reportCycle [(1, [fun _ => 5, fun _ => 6])]
        ⟨0, 0, 0, false, fun _ _ => 0⟩ false) ∧
     (false = true → reportSendPhase ⟨0, 0, 0, false, fun _ _ => 0⟩ false
        = ⟨0, 0, 0, false, fun _ _ => 0⟩) ∧
     ((reportCycle [(1, [fun _ => 5, fun _ => 6])]
          ⟨0, 0, 0, false, fun _ _ => 0⟩ false).report_read_ptr ≠
         (⟨0, 0, 0, false, fun _ _ => 0⟩ : ReportState).report_read_ptr →
       false = false ∧
         (⟨0, 0, 0, false, fun _ _ => 0⟩ : ReportState).transmit_running
           = true ∧
         0 < (⟨0, 0, 0, false, fun _ _ => 0⟩ : ReportState).report_count) ∧
     (∀ (msgs : List (Nat → Nat)) (s2 : ReportState),
       ¬(s2.report_count < NEURAPP_REPORT_QUEUE_LENGTH) →
       reportGenLoop msgs s2 = s2) ∧
     (∀ (msgs : List (Nat → Nat)) (s2 : ReportState), ReportInv s2 →
       (reportGenLoop msgs s2).report_count =
         min NEURAPP_REPORT_QUEUE_LENGTH
           (s2.report_count + msgs.length))) :=
  ⟨⟨by decide, by decide, by decide, by decide,
      fun j hj => absurd (show j < 0 from hj) (by omega)⟩,
   C8_report_queue_invariants ⟨0, 0, 0, false, fun _ _ => 0⟩
     ⟨by decide, by decide, by decide, by decide,
       fun j hj => absurd (show j < 0 from hj) (by omega)⟩
     [(1, [fun _ => 5, fun _ => 6])] false⟩

end NeurAVR
